import Mathlib

/-!
# flowgen: the node factory (`src/nodes/factory.js`)

A shallow embedding of the class `Factory` and a verification of its
declaration-identity and naming behaviour.

JavaScript objects have identity and are mutable, so the embedding keeps an explicit
heap: a list of node objects, a reference being an index into it.  `new C(..)` appends
an object to the heap and yields its index.  The three private tables of the factory
are JavaScript objects without prototype (`Object.create(null)`) used as string-keyed
maps; they are embedded as insertion-ordered association lists.
-/

namespace Flowgen

/-! ## String-keyed JavaScript objects -/

/-- A prototype-less JavaScript object used as a map from string keys to values,
in insertion order. -/
abbrev JsObject (α : Type) := List (String × α)

namespace JsObject

variable {α : Type}

/-- The expression `o[k]`: the value stored under `k`, `none` standing for `undefined`. -/
def get : JsObject α → String → Option α
  | [], _ => none
  | (k', v) :: o, k => if k' = k then some v else get o k

/-- The assignment `o[k] = v`: overwrite in place when the key exists, else append. -/
def set : JsObject α → String → α → JsObject α
  | [], k, v => [(k, v)]
  | (k', v') :: o, k, v => if k' = k then (k', v) :: o else (k', v') :: set o k v

/-- The call `Object.keys(o)`. -/
def keys (o : JsObject α) : List String := o.map Prod.fst

end JsObject

/-! ## Syntax nodes and the symbol-resolution service (external collaborators) -/

/-- One structural signature of a declaration (a call shape, a property shape), compared
structurally. -/
abbrev Member := String

/-- The identifier node of a declaration, `node.name`: its text and its position in the
source file. -/
structure Ident where
  text : String
  pos : Nat
  deriving DecidableEq, Repr

/-- A semantic entity as returned by the symbol-resolution session. -/
abbrev Symbol := String

/-- A syntax node of the source parser (`RawNode`): read-only input of every operation.
Only what the factory reads of it is kept: its identifier and its member signatures. -/
structure RawNode where
  name : Ident
  members : List Member
  deriving DecidableEq, Repr

/-- Modelled from the spec: `getMembersFromNode` of `../parse/ast`, which is not part
of the sources at hand; it "extract[s] the member signatures from `node`". -/
def getMembersFromNode (node : RawNode) : List Member := node.members

/-- The symbol-resolution session held in `checker.current`. -/
structure TypeChecker where
  getSymbolAtLocation : Ident → Symbol

/-- The ambient `checker` of `../checker`: `current` is unset (`none`) while no
symbol-resolution session is active. -/
structure Checker where
  current : Option TypeChecker

/-- What `createPropertyNode` reads from outside the factory: the ambient `checker` and
the path formatter `getFullyQualifiedName` of `../printers/node` (taken as a parameter,
its code is not part of the sources at hand). -/
structure Env where
  checker : Checker
  getFullyQualifiedName : Symbol → Ident → Bool → String

/-! ## Node objects and the heap -/

/-- A reference to a node object: its index in the heap. -/
abbrev Ref := Nat

/-- The class of a node object, as tested by `instanceof`. -/
inductive Kind
  | moduleNode
  | propertyNode
  | namespaceNode
  | importNode
  | exportNode
  | exportDeclarationNode
  deriving DecidableEq, Repr

/-- A node object (class `Node` and its subclasses).  `name` is the attribute `name` of
a ModuleNode or NamespaceNode, `raw` the wrapped syntax node, `members` the ordered
member collection of a declaration node, `children` the named children. -/
structure Obj where
  kind : Kind
  name : Option String
  raw : Option RawNode
  members : List Member
  children : JsObject Ref
  deriving DecidableEq, Repr

/-- The heap of node objects. -/
abbrev Heap := List Obj

/-- The evaluation of `new C(..)`: the object is appended, its index is the reference. -/
def alloc (h : Heap) (o : Obj) : Heap × Ref := (h ++ [o], h.length)

/-- Mutation of the object behind a reference.  A reference held by the program always
designates a live object; on an index outside the heap nothing changes. -/
def Heap.update (h : Heap) (r : Ref) (f : Obj → Obj) : Heap :=
  match h[r]? with
  | some o => h.set r (f o)
  | none => h

/-- Modelled from the spec: the constructor of `ModuleNode` (`./module`), not part of
the sources at hand: a module scope with attribute `name` and no children yet. -/
def ModuleNode.new (name : String) : Obj :=
  { kind := .moduleNode, name := some name, raw := none, members := [], children := [] }

/-- Modelled from the spec: the constructor of `NamespaceNode` (`./namespace`), not part
of the sources at hand: a namespace scope with attribute `name`. -/
def NamespaceNode.new (name : String) : Obj :=
  { kind := .namespaceNode, name := some name, raw := none, members := [], children := [] }

/-- Modelled from the spec: the constructor of `PropertyNode` (`./property`), the
DeclarationNode of the spec, not part of the sources at hand: it wraps `node` and holds
the member signatures observed on it. -/
def PropertyNode.new (node : RawNode) : Obj :=
  { kind := .propertyNode, name := none, raw := some node,
    members := getMembersFromNode node, children := [] }

/-- Modelled from the spec: the constructor of `ImportNode` (`./import`), a thin wrapper
around a syntax node. -/
def ImportNode.new (node : RawNode) : Obj :=
  { kind := .importNode, name := none, raw := some node, members := [], children := [] }

/-- Modelled from the spec: the constructor of `ExportNode` (`./export`), a thin wrapper
around a syntax node. -/
def ExportNode.new (node : RawNode) : Obj :=
  { kind := .exportNode, name := none, raw := some node, members := [], children := [] }

/-- Modelled from the spec: the constructor of `ExportDeclarationNode`
(`./export-declaration`), a thin wrapper around a syntax node. -/
def ExportDeclarationNode.new (node : RawNode) : Obj :=
  { kind := .exportDeclarationNode, name := none, raw := some node, members := [],
    children := [] }

/-- Modelled from the spec: one step of the member merge of a DeclarationNode, "adding a
member that is structurally identical to one already present is a no-op; otherwise it
is appended". -/
def addMember (present : List Member) (m : Member) : List Member :=
  if m ∈ present then present else present ++ [m]

/-- Modelled from the spec: `maybeAddMember` of `Node` (`./node`), not part of the
sources at hand: the extracted member signatures are merged one after the other into
the member collection (append-if-novel). -/
def Obj.maybeAddMember (o : Obj) (members : List Member) : Obj :=
  { o with members := members.foldl addMember o.members }

/-- Modelled from the spec: `addChild(key, child)` of `Node` (`./node`), not part of the
sources at hand: the node owns named children, `child` is stored under `key`. -/
def Obj.addChild (o : Obj) (key : String) (child : Ref) : Obj :=
  { o with children := o.children.set key child }

/-! ## The factory -/

/-- The state of a run: the heap of node objects and the three tables of the factory
instance (`_modules`, `_propDeclarations`, `_functionDeclarations`). -/
structure State where
  heap : Heap
  _modules : JsObject Ref
  _propDeclarations : JsObject Ref
  _functionDeclarations : JsObject Nat
  deriving DecidableEq, Repr

/-- The constructor of `Factory`: three empty tables, on a heap that may already hold
objects. -/
def Factory.create (heap : Heap) : State :=
  { heap := heap, _modules := [], _propDeclarations := [], _functionDeclarations := [] }

/-- The method `createModuleNode(name)`.  The test `Object.keys(this._modules).includes(name)`
followed by the read `this._modules[name]` is one lookup: the key is present exactly
when the lookup yields a value. -/
def createModuleNode (s : State) (name : String) : State × Ref :=
  match s._modules.get name with
  | some m => (s, m)
  | none =>
    let (heap, module) := alloc s.heap (ModuleNode.new name)
    ({ s with heap := heap, _modules := s._modules.set name module }, module)

/-- The method `createFunctionDeclaration(node, name, context)`.  Counters are natural
numbers (JavaScript numbers are exact on the integers a run can count to); a falsy
counter is an absent one or `0`; the string built from an absent counter would be
`name + "undefined"`. -/
def createFunctionDeclaration (s : State) (node : RawNode) (name : String) (context : Ref) :
    State :=
  let (heap, propNode) := alloc s.heap (PropertyNode.new node)
  let fd₁ : JsObject Nat :=
    match s._functionDeclarations.get name with
    | none => s._functionDeclarations.set name 0
    | some 0 => s._functionDeclarations.set name 0
    | some (_ + 1) => s._functionDeclarations
  let fd₂ : JsObject Nat :=
    if name ∈ fd₁.keys then
      match fd₁.get name with
      | some c => fd₁.set name (c + 1)
      | none => fd₁
    else fd₁
  let key : String :=
    match fd₂.get name with
    | some c => name ++ toString c
    | none => name ++ "undefined"
  { s with heap := Heap.update heap context (fun o => o.addChild key propNode),
           _functionDeclarations := fd₂ }

/-- Lines 69 to 75 of `createPropertyNode`: the key under which a named declaration is
registered, from the two successive `instanceof` tests on the context. -/
def qualifiedName (env : Env) (heap : Heap) (node : RawNode) (name : String)
    (context : Option Ref) : String :=
  let ctx : Option Obj := context.bind (fun r => heap[r]?)
  let name₁ : String :=
    match ctx with
    | some o =>
      if o.kind = .moduleNode then
        (match o.name with
         | some m => m
         | none => "undefined") ++ "$" ++ name
      else name
    | none => name
  match ctx, env.checker.current with
  | some o, some session =>
    if o.kind = .namespaceNode then
      env.getFullyQualifiedName (session.getSymbolAtLocation node.name) node.name false
    else name₁
  | _, _ => name₁

/-- The method `createPropertyNode(node, name?, context?)`; an omitted argument is
`none`.  As in `createModuleNode`, the `includes` test and the read of the entry are
one lookup. -/
def createPropertyNode (env : Env) (s : State) (node : RawNode) (name : Option String)
    (context : Option Ref) : State × Ref :=
  match name with
  | none =>
    let (heap, propNode) := alloc s.heap (PropertyNode.new node)
    ({ s with heap := heap }, propNode)
  | some name =>
    let name := qualifiedName env s.heap node name context
    match s._propDeclarations.get name with
    | some existing =>
      ({ s with heap := Heap.update s.heap existing
                  (fun o => o.maybeAddMember (getMembersFromNode node)) }, existing)
    | none =>
      let (heap, propNode) := alloc s.heap (PropertyNode.new node)
      ({ s with heap := heap, _propDeclarations := s._propDeclarations.set name propNode },
        propNode)

/-- The method `createNamespaceNode(name)`. -/
def createNamespaceNode (s : State) (name : String) : State × Ref :=
  let (heap, r) := alloc s.heap (NamespaceNode.new name)
  ({ s with heap := heap }, r)

/-- The method `createImportNode(node)`. -/
def createImportNode (s : State) (node : RawNode) : State × Ref :=
  let (heap, r) := alloc s.heap (ImportNode.new node)
  ({ s with heap := heap }, r)

/-- The method `createExportNode(node)`. -/
def createExportNode (s : State) (node : RawNode) : State × Ref :=
  let (heap, r) := alloc s.heap (ExportNode.new node)
  ({ s with heap := heap }, r)

/-- The method `createExportDeclarationNode(node)`. -/
def createExportDeclarationNode (s : State) (node : RawNode) : State × Ref :=
  let (heap, r) := alloc s.heap (ExportDeclarationNode.new node)
  ({ s with heap := heap }, r)

/-! ## Runs: sequences of factory operations -/

/-- One call of a factory method by the tree walker, with its arguments (and, for
`createPropertyNode`, the ambient environment at the time of the call). -/
inductive Op
  | createModuleNode (name : String)
  | createFunctionDeclaration (node : RawNode) (name : String) (context : Ref)
  | createPropertyNode (env : Env) (node : RawNode) (name : Option String)
      (context : Option Ref)
  | createNamespaceNode (name : String)
  | createImportNode (node : RawNode)
  | createExportNode (node : RawNode)
  | createExportDeclarationNode (node : RawNode)

/-- The state after one operation. -/
def step (s : State) : Op → State
  | .createModuleNode name => (Flowgen.createModuleNode s name).1
  | .createFunctionDeclaration node name context =>
    Flowgen.createFunctionDeclaration s node name context
  | .createPropertyNode env node name context =>
    (Flowgen.createPropertyNode env s node name context).1
  | .createNamespaceNode name => (Flowgen.createNamespaceNode s name).1
  | .createImportNode node => (Flowgen.createImportNode s node).1
  | .createExportNode node => (Flowgen.createExportNode s node).1
  | .createExportDeclarationNode node => (Flowgen.createExportDeclarationNode s node).1

/-- The state after a sequence of operations, first to last. -/
def run (s : State) : List Op → State
  | [] => s
  | op :: ops => run (step s op) ops

/-- A state reachable from a fresh factory by a sequence of factory operations. -/
def Reachable (s : State) : Prop := ∃ heap ops, s = run (Factory.create heap) ops

/-- The overload counter stored for `name`, an absent counter counting as `0`. -/
def counter (s : State) (name : String) : Nat := (s._functionDeclarations.get name).getD 0

/-- The number of `createFunctionDeclaration` calls with the given name in a sequence of
operations. -/
def callsOf (name : String) : List Op → Nat
  | [] => 0
  | .createFunctionDeclaration _ name' _ :: ops =>
    (if name' = name then 1 else 0) + callsOf name ops
  | _ :: ops => callsOf name ops

/-- The child stored under `key` in the node behind `context`, if any. -/
def childOf (s : State) (context : Ref) (key : String) : Option Ref :=
  s.heap[context]?.bind (fun o => o.children.get key)

/-- The member collection of the node behind a reference, if it is live. -/
def membersOf (s : State) (r : Ref) : Option (List Member) :=
  s.heap[r]?.map (fun o => o.members)

/-- The syntax node wrapped by the node behind a reference, if any. -/
def rawOf (s : State) (r : Ref) : Option RawNode :=
  s.heap[r]?.bind (fun o => o.raw)

/-- The members of `ms` that the merge appends to a collection holding `present`: going
through `ms` in order, those not structurally equal to a member already present (a member
appended earlier in the same merge is present for the later ones). -/
def novelMembers (present : List Member) : List Member → List Member
  | [] => []
  | m :: ms =>
    if m ∈ present then novelMembers present ms else m :: novelMembers (present ++ [m]) ms

/-- References are never dangling: every reference stored in a table of the factory
designates a live object, and no object is stored under two keys of one table. -/
structure WellFormed (s : State) : Prop where
  modules_live : ∀ k r, s._modules.get k = some r → r < s.heap.length
  modules_inj : ∀ k k' r, s._modules.get k = some r → s._modules.get k' = some r → k = k'
  props_live : ∀ k r, s._propDeclarations.get k = some r → r < s.heap.length
  props_inj : ∀ k k' r, s._propDeclarations.get k = some r →
    s._propDeclarations.get k' = some r → k = k'
  modules_keys : s._modules.keys.Nodup
  props_keys : s._propDeclarations.keys.Nodup

/-- A registry after one operation: unchanged, or extended by one fresh key bound to the
object allocated by the operation. -/
def Extends (heap heap' : Heap) (t t' : JsObject Ref) : Prop :=
  t' = t ∨ ∃ k, t.get k = none ∧ t' = t.set k heap.length ∧ heap.length < heap'.length

/-! ## Sample inputs -/

/-- An environment in which no symbol-resolution session is active. -/
def envNoSession : Env :=
  { checker := { current := none }, getFullyQualifiedName := fun symbol _ _ => symbol }

/-- An environment with an active session: an identifier resolves to a symbol named by
its text, whose canonical path is that name. -/
def envSession : Env :=
  { checker := { current := some { getSymbolAtLocation := fun ident => ident.text } },
    getFullyQualifiedName := fun symbol _ _ => symbol }

/-- A declaration of `foo` with the one member `X`. -/
def fooX : RawNode := { name := { text := "foo", pos := 0 }, members := ["X"] }

/-- A later declaration of `foo` with the one member `Y`. -/
def fooY : RawNode := { name := { text := "foo", pos := 40 }, members := ["Y"] }

/-- A declaration of `bar` with the one member `Y`. -/
def barY : RawNode := { name := { text := "bar", pos := 40 }, members := ["Y"] }

/-- A fresh factory next to one namespace node `ns`, at reference `0`. -/
def inNamespace : State := Factory.create [NamespaceNode.new "ns"]

/-- The state after `foo` has been registered once on a fresh factory. -/
def fooRegistered : State :=
  run (Factory.create []) [.createPropertyNode envNoSession fooX (some "foo") none]

/-- A fresh factory next to one module node `m`, at reference `0`. -/
def inModule : State := Factory.create [ModuleNode.new "m"]

/-- A fresh factory next to two namespace nodes `A` and `B`, at references `0` and `1`. -/
def twoContexts : State := Factory.create [NamespaceNode.new "A", NamespaceNode.new "B"]

/-- A fresh factory next to two module nodes `m1` and `m2`, at references `0` and `1`. -/
def twoModules : State := Factory.create [ModuleNode.new "m1", ModuleNode.new "m2"]

/-- A fresh factory next to two module nodes `a` and `a$b`, at references `0` and `1`. -/
def nestedModules : State := Factory.create [ModuleNode.new "a", ModuleNode.new "a$b"]

/-- Ten successive registrations of the function `f` under the context at reference `0`. -/
def tenTimesF : List Op := List.replicate 10 (.createFunctionDeclaration fooX "f" 0)

/-! ## Tables: lookup after assignment -/

namespace JsObject

variable {α : Type}

theorem get_set_self (o : JsObject α) (k : String) (v : α) : (o.set k v).get k = some v := by
  induction o with
  | nil => simp [set, get]
  | cons p o ih =>
    obtain ⟨k', v'⟩ := p
    by_cases h : k' = k
    · simp [set, get, h]
    · simp [set, get, h, ih]

theorem get_set_of_ne (o : JsObject α) {k k' : String} (v : α) (h : k ≠ k') :
    (o.set k v).get k' = o.get k' := by
  induction o with
  | nil => simp [set, get, h]
  | cons p o ih =>
    obtain ⟨k₀, v₀⟩ := p
    by_cases h₀ : k₀ = k
    · subst h₀
      simp [set, get, h]
    · by_cases h₁ : k₀ = k'
      · subst h₁
        simp [set, get, h₀]
      · simp [set, get, h₀, h₁, ih]

theorem set_set (o : JsObject α) (k : String) (v v' : α) :
    (o.set k v).set k v' = o.set k v' := by
  induction o with
  | nil => simp [set]
  | cons p o ih =>
    obtain ⟨k₀, v₀⟩ := p
    by_cases h₀ : k₀ = k
    · simp [set, h₀]
    · simp [set, h₀, ih]

theorem get_eq_none_iff (o : JsObject α) (k : String) : o.get k = none ↔ k ∉ o.keys := by
  induction o with
  | nil => simp [get, keys]
  | cons p o ih =>
    obtain ⟨k₀, v₀⟩ := p
    by_cases h₀ : k₀ = k
    · simp [get, keys, h₀]
    · have h₁ : ¬ k = k₀ := fun e => h₀ e.symm
      simp only [get, h₀, if_false, ih]
      simp [keys, h₁]

theorem mem_keys_of_get {o : JsObject α} {k : String} {v : α} (h : o.get k = some v) :
    k ∈ o.keys := by
  by_contra hk
  rw [(get_eq_none_iff o k).mpr hk] at h
  cases h

theorem mem_keys_set_self (o : JsObject α) (k : String) (v : α) : k ∈ (o.set k v).keys :=
  mem_keys_of_get (get_set_self o k v)

theorem keys_set_of_mem (o : JsObject α) {k : String} (v : α) (h : k ∈ o.keys) :
    (o.set k v).keys = o.keys := by
  induction o with
  | nil => simp [keys] at h
  | cons p o ih =>
    obtain ⟨k₀, v₀⟩ := p
    by_cases h₀ : k₀ = k
    · simp [set, keys, h₀]
    · have hk : k ∈ keys o := by
        have : k = k₀ ∨ k ∈ keys o := by simpa [keys] using h
        rcases this with e | e
        · exact absurd e.symm h₀
        · exact e
      have := ih hk
      simp only [keys] at this
      simp [set, keys, h₀, this]

theorem keys_set_of_not_mem (o : JsObject α) {k : String} (v : α) (h : k ∉ o.keys) :
    (o.set k v).keys = o.keys ++ [k] := by
  induction o with
  | nil => simp [set, keys]
  | cons p o ih =>
    obtain ⟨k₀, v₀⟩ := p
    have h₀ : ¬ k₀ = k := by
      intro e
      apply h
      simp [keys, e]
    have hk : k ∉ keys o := by
      intro e
      apply h
      simp only [keys] at e
      simp [keys, e]
    have := ih hk
    simp only [keys] at this
    simp [set, keys, h₀, this]

theorem nodup_keys_set (o : JsObject α) (k : String) (v : α) (h : o.keys.Nodup) :
    (o.set k v).keys.Nodup := by
  by_cases hk : k ∈ o.keys
  · rw [keys_set_of_mem o v hk]
    exact h
  · rw [keys_set_of_not_mem o v hk]
    exact List.Nodup.append h (List.nodup_singleton k) (by simpa using hk)

end JsObject

/-! ## The heap: allocation and mutation -/

theorem Heap.length_update (h : Heap) (r : Ref) (f : Obj → Obj) :
    (h.update r f).length = h.length := by
  unfold Heap.update
  split <;> simp

theorem Heap.getElem?_update_self (h : Heap) (r : Ref) (f : Obj → Obj) :
    (h.update r f)[r]? = h[r]?.map f := by
  unfold Heap.update
  split
  · rename_i o ho
    rw [List.getElem?_set_self', ho]
    rfl
  · rename_i ho
    simp [ho]

theorem Heap.getElem?_update_of_ne (h : Heap) {r r' : Ref} (f : Obj → Obj) (hne : r ≠ r') :
    (h.update r f)[r']? = h[r']? := by
  unfold Heap.update
  split
  · exact List.getElem?_set_ne hne
  · rfl

theorem Heap.update_eq_self (h : Heap) (r : Ref) (f : Obj → Obj)
    (hf : ∀ o, h[r]? = some o → f o = o) : h.update r f = h := by
  unfold Heap.update
  split
  · rename_i o ho
    rw [hf o ho]
    apply List.ext_getElem?
    intro i
    by_cases hi : r = i
    · subst hi
      rw [List.getElem?_set_self', ho]
      rfl
    · rw [List.getElem?_set_ne hi]
  · rfl

theorem getElem?_alloc_of_lt (h : Heap) (o : Obj) {r : Ref} (hr : r < h.length) :
    (h ++ [o])[r]? = h[r]? :=
  List.getElem?_append_left hr

theorem getElem?_alloc_self (h : Heap) (o : Obj) : (h ++ [o])[h.length]? = some o :=
  List.getElem?_concat_length h o

/-! ## The member merge -/

theorem foldl_addMember (present ms : List Member) :
    ms.foldl addMember present = present ++ novelMembers present ms := by
  induction ms generalizing present with
  | nil => simp [novelMembers]
  | cons m ms ih =>
    by_cases hm : m ∈ present
    · simp [novelMembers, addMember, hm, ih]
    · simp [novelMembers, addMember, hm, ih]

theorem mem_novelMembers (present ms : List Member) (m : Member) :
    m ∈ novelMembers present ms ↔ m ∈ ms ∧ m ∉ present := by
  induction ms generalizing present with
  | nil => simp [novelMembers]
  | cons m₀ ms ih =>
    by_cases hm : m₀ ∈ present
    · simp only [novelMembers, hm, if_true, ih, List.mem_cons]
      constructor
      · rintro ⟨h₁, h₂⟩
        exact ⟨Or.inr h₁, h₂⟩
      · rintro ⟨h₁ | h₁, h₂⟩
        · subst h₁
          exact absurd hm h₂
        · exact ⟨h₁, h₂⟩
    · have hsplit : m ∉ present ++ [m₀] ↔ m ∉ present ∧ m ≠ m₀ := by simp
      simp only [novelMembers, hm, if_false, List.mem_cons, ih, hsplit]
      constructor
      · rintro (h₁ | ⟨h₁, h₂, _⟩)
        · subst h₁
          exact ⟨Or.inl rfl, hm⟩
        · exact ⟨Or.inr h₁, h₂⟩
      · rintro ⟨h₁ | h₁, h₂⟩
        · exact Or.inl h₁
        · by_cases e : m = m₀
          · exact Or.inl e
          · exact Or.inr ⟨h₁, h₂, e⟩

theorem nodup_novelMembers (present ms : List Member) : (novelMembers present ms).Nodup := by
  induction ms generalizing present with
  | nil => simp [novelMembers]
  | cons m₀ ms ih =>
    by_cases hm : m₀ ∈ present
    · simp only [novelMembers, hm, if_true]
      exact ih present
    · simp only [novelMembers, hm, if_false, List.nodup_cons]
      refine ⟨?_, ih _⟩
      rw [mem_novelMembers]
      simp

theorem sublist_novelMembers (present ms : List Member) :
    (novelMembers present ms).Sublist ms := by
  induction ms generalizing present with
  | nil => simp [novelMembers]
  | cons m₀ ms ih =>
    by_cases hm : m₀ ∈ present
    · simp only [novelMembers, hm, if_true]
      exact (ih present).cons m₀
    · simp only [novelMembers, hm, if_false]
      exact (ih _).cons₂ m₀

theorem novelMembers_of_nodup (present ms : List Member) (h : ms.Nodup) :
    novelMembers present ms = ms.filter (fun m => decide (m ∉ present)) := by
  induction ms generalizing present with
  | nil => simp [novelMembers]
  | cons m₀ ms ih =>
    have h₀ : m₀ ∉ ms := (List.nodup_cons.mp h).1
    have hms : ms.Nodup := (List.nodup_cons.mp h).2
    by_cases hm : m₀ ∈ present
    · simp [novelMembers, hm, ih present hms]
    · simp only [novelMembers, hm, if_false, ih _ hms]
      rw [List.filter_cons_of_pos (by simpa using hm)]
      congr 1
      apply List.filter_congr
      intro m hmem
      have : m ≠ m₀ := fun e => h₀ (e ▸ hmem)
      simp [this]

theorem novelMembers_eq_nil (present ms : List Member) (h : ∀ m ∈ ms, m ∈ present) :
    novelMembers present ms = [] := by
  apply List.eq_nil_iff_forall_not_mem.mpr
  intro m hm
  rw [mem_novelMembers] at hm
  exact hm.2 (h m hm.1)

/-! ## The qualified name reads only the context object -/

theorem qualifiedName_congr (env : Env) (heap heap' : Heap) (node : RawNode) (name : String)
    (context : Option Ref)
    (h : (context.bind (fun r => heap[r]?)).map (fun o => (o.kind, o.name))
      = (context.bind (fun r => heap'[r]?)).map (fun o => (o.kind, o.name))) :
    qualifiedName env heap node name context = qualifiedName env heap' node name context := by
  unfold qualifiedName
  generalize context.bind (fun r => heap[r]?) = x at h
  generalize context.bind (fun r => heap'[r]?) = y at h
  cases x with
  | none =>
    cases y with
    | none => rfl
    | some o' => simp at h
  | some o =>
    cases y with
    | none => simp at h
    | some o' =>
      simp only [Option.map_some', Option.some.injEq, Prod.mk.injEq] at h
      obtain ⟨hk, hn⟩ := h
      cases env.checker.current <;> simp only [hk, hn]

theorem lt_of_getElem?_eq_some {heap : Heap} {r : Ref} {o : Obj} (h : heap[r]? = some o) :
    r < heap.length := by
  by_contra hlt
  rw [List.getElem?_eq_none (Nat.le_of_not_lt hlt)] at h
  cases h

theorem qualifiedName_update (env : Env) (heap : Heap) (r : Ref) (f : Obj → Obj)
    (node : RawNode) (name : String) (context : Option Ref)
    (hf : ∀ o, (f o).kind = o.kind ∧ (f o).name = o.name) :
    qualifiedName env (heap.update r f) node name context
      = qualifiedName env heap node name context := by
  apply qualifiedName_congr
  cases context with
  | none => rfl
  | some c =>
    by_cases e : r = c
    · subst e
      simp only [Option.some_bind, Heap.getElem?_update_self]
      cases heap[r]? with
      | none => rfl
      | some o => simp [(hf o).1, (hf o).2]
    · simp only [Option.some_bind, Heap.getElem?_update_of_ne _ _ e]

theorem qualifiedName_none (env : Env) (heap : Heap) (node : RawNode) (name : String) :
    qualifiedName env heap node name none = name := rfl

theorem qualifiedName_module (env : Env) (heap : Heap) (node : RawNode) (name : String)
    (c : Ref) (o : Obj) (m : String) (h : heap[c]? = some o) (hk : o.kind = .moduleNode)
    (hn : o.name = some m) :
    qualifiedName env heap node name (some c) = m ++ "$" ++ name := by
  unfold qualifiedName
  cases env.checker.current <;> simp [h, hk, hn]

theorem qualifiedName_alloc (env : Env) (heap : Heap) (o : Obj) (node : RawNode)
    (name : String) (context : Option Ref) (hlive : ∀ r, context = some r → r < heap.length) :
    qualifiedName env (heap ++ [o]) node name context
      = qualifiedName env heap node name context := by
  apply qualifiedName_congr
  cases context with
  | none => rfl
  | some r => exact congrArg _ (getElem?_alloc_of_lt heap o (hlive r rfl))

/-! ## `createPropertyNode`: the two branches of a named call -/

theorem createPropertyNode_fresh (env : Env) (s : State) (node : RawNode) (name : String)
    (context : Option Ref)
    (h : s._propDeclarations.get (qualifiedName env s.heap node name context) = none) :
    createPropertyNode env s node (some name) context
      = ({ s with
            heap := s.heap ++ [PropertyNode.new node],
            _propDeclarations :=
              s._propDeclarations.set (qualifiedName env s.heap node name context)
                s.heap.length },
          s.heap.length) := by
  simp only [createPropertyNode, h, alloc]

theorem createPropertyNode_registered (env : Env) (s : State) (node : RawNode) (name : String)
    (context : Option Ref) (r : Ref)
    (h : s._propDeclarations.get (qualifiedName env s.heap node name context) = some r) :
    createPropertyNode env s node (some name) context
      = ({ s with
            heap := s.heap.update r (fun o => o.maybeAddMember (getMembersFromNode node)) },
          r) := by
  simp only [createPropertyNode, h]

/-! ## C1: merge correctness -/

/-- C1, as stated, fails: under a NamespaceNode context with an active symbol-resolution
session the registry key comes from the identifier of the syntax node, so two calls with
the same name and the same context but declarations of different symbols (`foo`, `bar`)
return two distinct nodes. -/
theorem merge_same_name_context_distinct :
    inNamespace._propDeclarations.get
        (qualifiedName envSession inNamespace.heap fooX "foo" (some 0)) = none ∧
      (createPropertyNode envSession
          (createPropertyNode envSession inNamespace fooX (some "foo") (some 0)).1
          barY (some "foo") (some 0)).2
        ≠ (createPropertyNode envSession inNamespace fooX (some "foo") (some 0)).2 := by
  decide

/-- C1, amended: if `createPropertyNode(n₁, name, ctx)` is called while its qualified name
is unregistered and the call `createPropertyNode(n₂, name, ctx)` that follows resolves to
the same qualified name, then both calls return the same DeclarationNode, and its member
collection afterwards consists of the members of `n₁` followed by exactly those members
of `n₂` that are not structurally equal to a member already present. -/
theorem createPropertyNode_merge_correct (env₁ env₂ : Env) (s s₁ s₂ : State)
    (n₁ n₂ : RawNode) (name : String) (context : Option Ref) (r₁ r₂ : Ref)
    (hlive : ∀ r, context = some r → r < s.heap.length)
    (hnew : s._propDeclarations.get (qualifiedName env₁ s.heap n₁ name context) = none)
    (hsame : qualifiedName env₂ s.heap n₂ name context
      = qualifiedName env₁ s.heap n₁ name context)
    (h₁ : createPropertyNode env₁ s n₁ (some name) context = (s₁, r₁))
    (h₂ : createPropertyNode env₂ s₁ n₂ (some name) context = (s₂, r₂)) :
    r₂ = r₁ ∧
      membersOf s₁ r₁ = some (getMembersFromNode n₁) ∧
      membersOf s₂ r₁ = some (getMembersFromNode n₁
        ++ novelMembers (getMembersFromNode n₁) (getMembersFromNode n₂)) ∧
      (∀ m, m ∈ novelMembers (getMembersFromNode n₁) (getMembersFromNode n₂)
        ↔ m ∈ getMembersFromNode n₂ ∧ m ∉ getMembersFromNode n₁) ∧
      (novelMembers (getMembersFromNode n₁) (getMembersFromNode n₂)).Nodup ∧
      (novelMembers (getMembersFromNode n₁) (getMembersFromNode n₂)).Sublist
        (getMembersFromNode n₂) ∧
      ((getMembersFromNode n₂).Nodup →
        novelMembers (getMembersFromNode n₁) (getMembersFromNode n₂)
          = (getMembersFromNode n₂).filter (fun m => decide (m ∉ getMembersFromNode n₁))) := by
  rw [createPropertyNode_fresh env₁ s n₁ name context hnew] at h₁
  obtain ⟨hs₁, hr₁⟩ := Prod.mk.inj h₁
  subst hs₁
  subst hr₁
  have hkey : qualifiedName env₂ (s.heap ++ [PropertyNode.new n₁]) n₂ name context
      = qualifiedName env₁ s.heap n₁ name context := by
    rw [qualifiedName_alloc env₂ s.heap _ n₂ name context hlive, hsame]
  have hget : (s._propDeclarations.set (qualifiedName env₁ s.heap n₁ name context)
      s.heap.length).get (qualifiedName env₂ (s.heap ++ [PropertyNode.new n₁]) n₂ name context)
      = some s.heap.length := by
    rw [hkey]
    exact JsObject.get_set_self _ _ _
  rw [createPropertyNode_registered env₂ _ n₂ name context s.heap.length hget] at h₂
  obtain ⟨hs₂, hr₂⟩ := Prod.mk.inj h₂
  subst hs₂
  refine ⟨hr₂.symm, ?_, ?_, mem_novelMembers _ _, nodup_novelMembers _ _,
    sublist_novelMembers _ _, novelMembers_of_nodup _ _⟩
  · simp [membersOf, getElem?_alloc_self, PropertyNode.new]
  · simp only [membersOf, Heap.getElem?_update_self, getElem?_alloc_self, Option.map_some',
      Obj.maybeAddMember, foldl_addMember, PropertyNode.new]

/-- C1 at a sample input: `foo` registered with member `X`, then with member `Y`. -/
theorem createPropertyNode_merge_correct_witness :
    membersOf
      (createPropertyNode envNoSession
        (createPropertyNode envNoSession (Factory.create []) fooX (some "foo") none).1
        fooY (some "foo") none).1 0 = some ["X", "Y"] :=
  (createPropertyNode_merge_correct envNoSession envNoSession (Factory.create []) _ _
    fooX fooY "foo" none 0 0 (by simp) (by decide) (by decide) rfl rfl).2.2.1

/-! ## What one operation does to the heap size and to the two registries -/

theorem createModuleNode_registered (s : State) (name : String) (m : Ref)
    (h : s._modules.get name = some m) : createModuleNode s name = (s, m) := by
  simp only [createModuleNode, h]

theorem createModuleNode_fresh (s : State) (name : String) (h : s._modules.get name = none) :
    createModuleNode s name
      = ({ s with heap := s.heap ++ [ModuleNode.new name],
                  _modules := s._modules.set name s.heap.length }, s.heap.length) := by
  simp only [createModuleNode, h, alloc]

theorem createFunctionDeclaration_heap_length (s : State) (node : RawNode) (name : String)
    (context : Ref) :
    (createFunctionDeclaration s node name context).heap.length = s.heap.length + 1 := by
  simp [createFunctionDeclaration, alloc, Heap.length_update]

theorem createFunctionDeclaration_modules (s : State) (node : RawNode) (name : String)
    (context : Ref) : (createFunctionDeclaration s node name context)._modules = s._modules :=
  rfl

theorem createFunctionDeclaration_propDeclarations (s : State) (node : RawNode)
    (name : String) (context : Ref) :
    (createFunctionDeclaration s node name context)._propDeclarations = s._propDeclarations :=
  rfl

theorem step_heap_length (s : State) (op : Op) : s.heap.length ≤ (step s op).heap.length := by
  cases op with
  | createModuleNode name =>
    cases h : s._modules.get name with
    | none => simp [step, createModuleNode_fresh s name h]
    | some m => simp [step, createModuleNode_registered s name m h]
  | createFunctionDeclaration node name context =>
    simp [step, createFunctionDeclaration_heap_length]
  | createPropertyNode env node name context =>
    cases name with
    | none => simp [step, createPropertyNode, alloc]
    | some name =>
      cases h : s._propDeclarations.get (qualifiedName env s.heap node name context) with
      | none => simp [step, createPropertyNode_fresh env s node name context h]
      | some r =>
        simp [step, createPropertyNode_registered env s node name context r h, Heap.length_update]
  | createNamespaceNode name => simp [step, createNamespaceNode, alloc]
  | createImportNode node => simp [step, createImportNode, alloc]
  | createExportNode node => simp [step, createExportNode, alloc]
  | createExportDeclarationNode node => simp [step, createExportDeclarationNode, alloc]

theorem step_modules (s : State) (op : Op) :
    Extends s.heap (step s op).heap s._modules (step s op)._modules := by
  cases op with
  | createModuleNode name =>
    cases h : s._modules.get name with
    | none =>
      right
      exact ⟨name, h, by simp [step, createModuleNode_fresh s name h]⟩
    | some m =>
      left
      simp [step, createModuleNode_registered s name m h]
  | createFunctionDeclaration node name context => exact Or.inl rfl
  | createPropertyNode env node name context =>
    left
    cases name with
    | none => rfl
    | some name =>
      cases h : s._propDeclarations.get (qualifiedName env s.heap node name context) with
      | none => simp [step, createPropertyNode_fresh env s node name context h]
      | some r => simp [step, createPropertyNode_registered env s node name context r h]
  | createNamespaceNode name => exact Or.inl rfl
  | createImportNode node => exact Or.inl rfl
  | createExportNode node => exact Or.inl rfl
  | createExportDeclarationNode node => exact Or.inl rfl

theorem step_propDeclarations (s : State) (op : Op) :
    Extends s.heap (step s op).heap s._propDeclarations (step s op)._propDeclarations := by
  cases op with
  | createModuleNode name =>
    left
    cases h : s._modules.get name with
    | none => simp [step, createModuleNode_fresh s name h]
    | some m => simp [step, createModuleNode_registered s name m h]
  | createFunctionDeclaration node name context => exact Or.inl rfl
  | createPropertyNode env node name context =>
    cases name with
    | none => exact Or.inl rfl
    | some name =>
      cases h : s._propDeclarations.get (qualifiedName env s.heap node name context) with
      | none =>
        right
        exact ⟨_, h, by simp [step, createPropertyNode_fresh env s node name context h]⟩
      | some r =>
        left
        simp [step, createPropertyNode_registered env s node name context r h]
  | createNamespaceNode name => exact Or.inl rfl
  | createImportNode node => exact Or.inl rfl
  | createExportNode node => exact Or.inl rfl
  | createExportDeclarationNode node => exact Or.inl rfl

theorem Extends.get_mono {heap heap' : Heap} {t t' : JsObject Ref}
    (h : Extends heap heap' t t') {k : String} {r : Ref} (hk : t.get k = some r) :
    t'.get k = some r := by
  rcases h with h | ⟨k₀, hnone, hset, _⟩
  · rw [h]
    exact hk
  · rw [hset, JsObject.get_set_of_ne]
    · exact hk
    · intro e
      rw [e, hk] at hnone
      cases hnone

theorem Extends.live {heap heap' : Heap} {t t' : JsObject Ref} (h : Extends heap heap' t t')
    (hlen : heap.length ≤ heap'.length) (hlive : ∀ k r, t.get k = some r → r < heap.length) :
    ∀ k r, t'.get k = some r → r < heap'.length := by
  intro k r hk
  rcases h with h | ⟨k₀, _, hset, hlt⟩
  · rw [h] at hk
    exact lt_of_lt_of_le (hlive k r hk) hlen
  · rw [hset] at hk
    by_cases e : k₀ = k
    · subst e
      rw [JsObject.get_set_self] at hk
      cases hk
      exact hlt
    · rw [JsObject.get_set_of_ne _ _ e] at hk
      exact lt_of_lt_of_le (hlive k r hk) hlen

theorem Extends.inj {heap heap' : Heap} {t t' : JsObject Ref} (h : Extends heap heap' t t')
    (hlive : ∀ k r, t.get k = some r → r < heap.length)
    (hinj : ∀ k k' r, t.get k = some r → t.get k' = some r → k = k') :
    ∀ k k' r, t'.get k = some r → t'.get k' = some r → k = k' := by
  intro k k' r hk hk'
  rcases h with h | ⟨k₀, _, hset, _⟩
  · rw [h] at hk hk'
    exact hinj k k' r hk hk'
  · rw [hset] at hk hk'
    by_cases e : k₀ = k
    · by_cases e' : k₀ = k'
      · exact e.symm.trans e'
      · subst e
        rw [JsObject.get_set_self] at hk
        rw [JsObject.get_set_of_ne _ _ e'] at hk'
        cases hk
        exact absurd (hlive k' _ hk') (lt_irrefl _)
    · rw [JsObject.get_set_of_ne _ _ e] at hk
      by_cases e' : k₀ = k'
      · subst e'
        rw [JsObject.get_set_self] at hk'
        cases hk'
        exact absurd (hlive k _ hk) (lt_irrefl _)
      · rw [JsObject.get_set_of_ne _ _ e'] at hk'
        exact hinj k k' r hk hk'

theorem Extends.nodup_keys {heap heap' : Heap} {t t' : JsObject Ref}
    (h : Extends heap heap' t t') (hn : t.keys.Nodup) : t'.keys.Nodup := by
  rcases h with h | ⟨k₀, _, hset, _⟩
  · rw [h]
    exact hn
  · rw [hset]
    exact JsObject.nodup_keys_set t k₀ _ hn

/-! ## Well-formedness is an invariant of every run -/

theorem wellFormed_create (heap : Heap) : WellFormed (Factory.create heap) where
  modules_live := by intro k r h; simp [Factory.create, JsObject.get] at h
  modules_inj := by intro k k' r h; simp [Factory.create, JsObject.get] at h
  props_live := by intro k r h; simp [Factory.create, JsObject.get] at h
  props_inj := by intro k k' r h; simp [Factory.create, JsObject.get] at h
  modules_keys := by simp [Factory.create, JsObject.keys]
  props_keys := by simp [Factory.create, JsObject.keys]

theorem wellFormed_step (s : State) (op : Op) (h : WellFormed s) : WellFormed (step s op) where
  modules_live := (step_modules s op).live (step_heap_length s op) h.modules_live
  modules_inj := (step_modules s op).inj h.modules_live h.modules_inj
  props_live := (step_propDeclarations s op).live (step_heap_length s op) h.props_live
  props_inj := (step_propDeclarations s op).inj h.props_live h.props_inj
  modules_keys := (step_modules s op).nodup_keys h.modules_keys
  props_keys := (step_propDeclarations s op).nodup_keys h.props_keys

theorem wellFormed_run (s : State) (ops : List Op) (h : WellFormed s) :
    WellFormed (run s ops) := by
  induction ops generalizing s with
  | nil => exact h
  | cons op ops ih => exact ih (step s op) (wellFormed_step s op h)

theorem wellFormed_of_reachable {s : State} (h : Reachable s) : WellFormed s := by
  obtain ⟨heap, ops, rfl⟩ := h
  exact wellFormed_run _ ops (wellFormed_create heap)

theorem run_append (s : State) (ops ops' : List Op) :
    run s (ops ++ ops') = run (run s ops) ops' := by
  induction ops generalizing s with
  | nil => rfl
  | cons op ops ih => exact ih (step s op)

theorem reachable_run {s : State} (h : Reachable s) (ops : List Op) : Reachable (run s ops) := by
  obtain ⟨heap, ops₀, rfl⟩ := h
  exact ⟨heap, ops₀ ++ ops, (run_append _ ops₀ ops).symm⟩

theorem run_heap_length (s : State) (ops : List Op) :
    s.heap.length ≤ (run s ops).heap.length := by
  induction ops generalizing s with
  | nil => exact le_refl _
  | cons op ops ih => exact le_trans (step_heap_length s op) (ih (step s op))

theorem run_modules_get (s : State) (ops : List Op) {k : String} {r : Ref}
    (h : s._modules.get k = some r) : (run s ops)._modules.get k = some r := by
  induction ops generalizing s with
  | nil => exact h
  | cons op ops ih => exact ih (step s op) ((step_modules s op).get_mono h)

theorem run_propDeclarations_get (s : State) (ops : List Op) {k : String} {r : Ref}
    (h : s._propDeclarations.get k = some r) :
    (run s ops)._propDeclarations.get k = some r := by
  induction ops generalizing s with
  | nil => exact h
  | cons op ops ih => exact ih (step s op) ((step_propDeclarations s op).get_mono h)

/-! ## C2: the declaration registry -/

theorem createPropertyNode_get (env : Env) (s : State) (node : RawNode) (name : String)
    (context : Option Ref) :
    (createPropertyNode env s node (some name) context).1._propDeclarations.get
        (qualifiedName env s.heap node name context)
      = some (createPropertyNode env s node (some name) context).2 := by
  cases h : s._propDeclarations.get (qualifiedName env s.heap node name context) with
  | none =>
    rw [createPropertyNode_fresh env s node name context h]
    exact JsObject.get_set_self _ _ _
  | some r =>
    rw [createPropertyNode_registered env s node name context r h]
    exact h

/-- C2: in every state reachable from a fresh factory the declaration registry has at
most one entry per qualified name; an entry, once registered, is still there, bound to the
same node, after any further sequence of factory operations; and every later named
`createPropertyNode` call that resolves to that qualified name returns that node, leaves
the registry as it is and constructs no new object. -/
theorem declaration_registry_invariant (s : State) (hs : Reachable s) :
    s._propDeclarations.keys.Nodup ∧
      ∀ q r, s._propDeclarations.get q = some r → ∀ ops : List Op,
        (run s ops)._propDeclarations.get q = some r ∧
        ∀ (env : Env) (node : RawNode) (name : String) (context : Option Ref),
          qualifiedName env (run s ops).heap node name context = q →
            (createPropertyNode env (run s ops) node (some name) context).2 = r ∧
            (createPropertyNode env (run s ops) node (some name) context).1._propDeclarations
              = (run s ops)._propDeclarations ∧
            (createPropertyNode env (run s ops) node (some name) context).1.heap.length
              = (run s ops).heap.length := by
  refine ⟨(wellFormed_of_reachable hs).props_keys, ?_⟩
  intro q r hq ops
  have hrun := run_propDeclarations_get s ops hq
  refine ⟨hrun, ?_⟩
  intro env node name context hname
  rw [← hname] at hrun
  rw [createPropertyNode_registered env (run s ops) node name context r hrun]
  exact ⟨rfl, rfl, Heap.length_update _ _ _⟩

/-- C2 at a sample input: `foo`, registered first, is still bound to node `0` after a
module, a function declaration and another declaration have been created. -/
theorem declaration_registry_invariant_witness :
    (run fooRegistered
        [.createModuleNode "m", .createFunctionDeclaration fooY "foo" 1,
          .createPropertyNode envNoSession barY (some "bar") none])._propDeclarations.get "foo"
      = some 0 :=
  ((declaration_registry_invariant fooRegistered
      ⟨[], [.createPropertyNode envNoSession fooX (some "foo") none], rfl⟩).2
    "foo" 0 (by decide) _).1

/-! ## C3: module memoization -/

theorem createModuleNode_get (s : State) (name : String) :
    (createModuleNode s name).1._modules.get name = some (createModuleNode s name).2 := by
  cases h : s._modules.get name with
  | none =>
    rw [createModuleNode_fresh s name h]
    exact JsObject.get_set_self _ _ _
  | some m =>
    rw [createModuleNode_registered s name m h]
    exact h

/-- C3: in every state reachable from a fresh factory, the instance returned by
`createModuleNode(a)` and the instance returned by a later `createModuleNode(b)`, whatever
operations come in between, are the same instance if and only if `a = b`; a call with an
already registered name leaves the state, so the module registry, unchanged. -/
theorem createModuleNode_memoized (s : State) (hs : Reachable s) (a b : String)
    (ops : List Op) :
    ((createModuleNode (run (createModuleNode s a).1 ops) b).2 = (createModuleNode s a).2
        ↔ a = b) ∧
      (a ∈ s._modules.keys → (createModuleNode s a).1 = s) ∧
      (createModuleNode (createModuleNode s a).1 a).1 = (createModuleNode s a).1 := by
  have hwf₁ : WellFormed (createModuleNode s a).1 :=
    wellFormed_step s (.createModuleNode a) (wellFormed_of_reachable hs)
  have hwf₂ : WellFormed (run (createModuleNode s a).1 ops) := wellFormed_run _ ops hwf₁
  have hget := run_modules_get _ ops (createModuleNode_get s a)
  refine ⟨⟨?_, ?_⟩, ?_, ?_⟩
  · intro h
    cases hb : (run (createModuleNode s a).1 ops)._modules.get b with
    | none =>
      rw [createModuleNode_fresh _ b hb] at h
      exact absurd (h ▸ hwf₂.modules_live a _ hget) (lt_irrefl _)
    | some m =>
      rw [createModuleNode_registered _ b m hb] at h
      exact hwf₂.modules_inj a b _ hget (by rw [hb]; exact congrArg some h)
  · intro h
    subst h
    rw [createModuleNode_registered _ a _ hget]
  · intro h
    cases ha : s._modules.get a with
    | none => exact absurd h ((JsObject.get_eq_none_iff _ _).mp ha)
    | some m => rw [createModuleNode_registered s a m ha]
  · rw [createModuleNode_registered _ a _ (createModuleNode_get s a)]

/-- C3 at a sample input: on the fresh factory, with the empty string as a name, the
same instance comes back after other operations. -/
theorem createModuleNode_memoized_witness :
    (createModuleNode (run (createModuleNode (Factory.create []) "").1
        [.createModuleNode "b", .createNamespaceNode ""]) "").2
      = (createModuleNode (Factory.create []) "").2 :=
  ((createModuleNode_memoized (Factory.create []) ⟨[], [], rfl⟩ "" ""
    [.createModuleNode "b", .createNamespaceNode ""]).1).mpr rfl

/-! ## `createFunctionDeclaration`: the counter is incremented before its first use -/

theorem createFunctionDeclaration_eq (s : State) (node : RawNode) (name : String)
    (context : Ref) :
    createFunctionDeclaration s node name context
      = { s with
          heap := Heap.update (s.heap ++ [PropertyNode.new node]) context
            (fun o => o.addChild (name ++ toString (counter s name + 1)) s.heap.length),
          _functionDeclarations :=
            s._functionDeclarations.set name (counter s name + 1) } := by
  unfold createFunctionDeclaration counter
  cases h : s._functionDeclarations.get name with
  | none =>
    simp [alloc, JsObject.mem_keys_set_self, JsObject.get_set_self, JsObject.set_set]
  | some c =>
    cases c with
    | zero =>
      simp [alloc, JsObject.mem_keys_set_self, JsObject.get_set_self, JsObject.set_set]
    | succ c =>
      simp [alloc, h, JsObject.mem_keys_of_get h, JsObject.get_set_self]

theorem counter_createFunctionDeclaration (s : State) (node : RawNode) (name : String)
    (context : Ref) :
    counter (createFunctionDeclaration s node name context) name = counter s name + 1 := by
  rw [createFunctionDeclaration_eq]
  simp [counter, JsObject.get_set_self]

theorem get_createFunctionDeclaration_of_ne (s : State) (node : RawNode) {name name' : String}
    (context : Ref) (h : name ≠ name') :
    (createFunctionDeclaration s node name context)._functionDeclarations.get name'
      = s._functionDeclarations.get name' := by
  rw [createFunctionDeclaration_eq]
  exact JsObject.get_set_of_ne _ _ h

theorem step_functionDeclarations (s : State) (op : Op)
    (h : ∀ node name context, op ≠ .createFunctionDeclaration node name context) :
    (step s op)._functionDeclarations = s._functionDeclarations := by
  cases op with
  | createModuleNode name =>
    cases hm : s._modules.get name with
    | none => simp [step, createModuleNode_fresh s name hm]
    | some m => simp [step, createModuleNode_registered s name m hm]
  | createFunctionDeclaration node name context => exact absurd rfl (h node name context)
  | createPropertyNode env node name context =>
    cases name with
    | none => rfl
    | some name =>
      cases hp : s._propDeclarations.get (qualifiedName env s.heap node name context) with
      | none => simp [step, createPropertyNode_fresh env s node name context hp]
      | some r => simp [step, createPropertyNode_registered env s node name context r hp]
  | createNamespaceNode name => rfl
  | createImportNode node => rfl
  | createExportNode node => rfl
  | createExportDeclarationNode node => rfl

theorem counter_step (s : State) (op : Op) (name : String) :
    counter (step s op) name = counter s name + callsOf name [op] := by
  by_cases h : ∀ node name' context, op ≠ .createFunctionDeclaration node name' context
  · have hc : callsOf name [op] = 0 := by
      cases op <;> first | rfl | exact absurd rfl (h _ _ _)
    simp [counter, step_functionDeclarations s op h, hc]
  · push_neg at h
    obtain ⟨node, name', context, rfl⟩ := h
    by_cases e : name' = name
    · subst e
      simp [step, counter_createFunctionDeclaration, callsOf]
    · simp [step, counter, get_createFunctionDeclaration_of_ne s node context e, callsOf, e]

theorem callsOf_cons (name : String) (op : Op) (ops : List Op) :
    callsOf name (op :: ops) = callsOf name [op] + callsOf name ops := by
  cases op <;> simp [callsOf]

theorem counter_run (s : State) (ops : List Op) (name : String) :
    counter (run s ops) name = counter s name + callsOf name ops := by
  induction ops generalizing s with
  | nil => simp [run, callsOf]
  | cons op ops ih =>
    rw [run, ih (step s op), counter_step, callsOf_cons name op ops, Nat.add_assoc]

/-! ## The children of a context after `createFunctionDeclaration` -/

theorem childOf_createFunctionDeclaration_self (s : State) (node : RawNode) (name : String)
    (context : Ref) (h : context < s.heap.length) :
    childOf (createFunctionDeclaration s node name context) context
        (name ++ toString (counter s name + 1)) = some s.heap.length := by
  rw [createFunctionDeclaration_eq]
  simp only [childOf, Heap.getElem?_update_self, getElem?_alloc_of_lt _ _ h,
    List.getElem?_eq_getElem h, Option.map_some', Option.some_bind, Obj.addChild]
  exact JsObject.get_set_self _ _ _

theorem childOf_createFunctionDeclaration_of_ne_key (s : State) (node : RawNode)
    (name : String) (context context' : Ref) (key : String) (h : context' < s.heap.length)
    (hkey : name ++ toString (counter s name + 1) ≠ key) :
    childOf (createFunctionDeclaration s node name context) context' key
      = childOf s context' key := by
  rw [createFunctionDeclaration_eq]
  by_cases e : context = context'
  · subst e
    simp only [childOf, Heap.getElem?_update_self, getElem?_alloc_of_lt _ _ h,
      List.getElem?_eq_getElem h, Option.map_some', Option.some_bind, Obj.addChild]
    exact JsObject.get_set_of_ne _ _ hkey
  · simp only [childOf, Heap.getElem?_update_of_ne _ _ e, getElem?_alloc_of_lt _ _ h]

theorem childOf_createFunctionDeclaration_of_ne (s : State) (node : RawNode) (name : String)
    {context context' : Ref} (key : String) (h : context' < s.heap.length)
    (hne : context ≠ context') :
    childOf (createFunctionDeclaration s node name context) context' key
      = childOf s context' key := by
  rw [createFunctionDeclaration_eq]
  simp only [childOf, Heap.getElem?_update_of_ne _ _ hne, getElem?_alloc_of_lt _ _ h]

theorem getElem?_createFunctionDeclaration_new (s : State) (node : RawNode) (name : String)
    (context : Ref) (h : context < s.heap.length) :
    (createFunctionDeclaration s node name context).heap[s.heap.length]?
      = some (PropertyNode.new node) := by
  rw [createFunctionDeclaration_eq]
  simp only [Heap.getElem?_update_of_ne _ _ (Nat.ne_of_lt h), getElem?_alloc_self]

theorem counter_create (heap : Heap) (name : String) : counter (Factory.create heap) name = 0 :=
  rfl

/-! ## C4: overload numbering -/

/-- C4: in a state reached from a fresh factory by operations among which
`createFunctionDeclaration` was called exactly `k - 1` times with `name` (`k ≥ 1`), the
next call with that name, whatever the (live) context, attaches its newly constructed
node to the context under the key `name` followed by the decimal representation of `k`;
for `k = 1` that key is `name` followed by `"1"`. -/
theorem overload_numbering (heap : Heap) (ops : List Op) (node : RawNode) (name : String)
    (context : Ref) (k : Nat) (hk : 1 ≤ k) (hcalls : callsOf name ops = k - 1)
    (hctx : context < (run (Factory.create heap) ops).heap.length) :
    childOf (createFunctionDeclaration (run (Factory.create heap) ops) node name context)
        context (name ++ toString k) = some (run (Factory.create heap) ops).heap.length ∧
      (createFunctionDeclaration (run (Factory.create heap) ops) node name context).heap[
          (run (Factory.create heap) ops).heap.length]? = some (PropertyNode.new node) ∧
      (k = 1 → name ++ toString k = name ++ "1") := by
  have hcount : counter (run (Factory.create heap) ops) name + 1 = k := by
    rw [counter_run, counter_create, hcalls]
    omega
  refine ⟨?_, getElem?_createFunctionDeclaration_new _ node name context hctx, ?_⟩
  · rw [← hcount]
    exact childOf_createFunctionDeclaration_self _ node name context hctx
  · intro h
    subst h
    rfl

/-- C4 at a sample input: three successive registrations of `f` under the module at
reference `0` produce the children `f1`, `f2`, `f3`, three distinct nodes. -/
theorem overload_numbering_witness :
    childOf
        (createFunctionDeclaration
          (run inModule
            [.createFunctionDeclaration fooX "f" 0, .createFunctionDeclaration fooY "f" 0])
          barY "f" 0) 0 "f3" = some 3 ∧
      (createFunctionDeclaration
          (run inModule
            [.createFunctionDeclaration fooX "f" 0, .createFunctionDeclaration fooY "f" 0])
          barY "f" 0).heap[0]?.map (fun o => o.children)
        = some [("f1", 1), ("f2", 2), ("f3", 3)] :=
  ⟨(overload_numbering [ModuleNode.new "m"]
      [.createFunctionDeclaration fooX "f" 0, .createFunctionDeclaration fooY "f" 0]
      barY "f" 0 3 (by decide) (by decide) (by decide)).1, by decide⟩

/-! ## C8: the suffix sequence is per name, not per context -/

/-- C8, as stated, fails: on a fresh factory with two contexts `A` (reference `0`) and
`B` (reference `1`), registering `f` once under `A` and then once under `B` leaves `B`
without a child `f1`; its child is `f2`. -/
theorem overload_suffix_not_per_context :
    childOf
        (createFunctionDeclaration (createFunctionDeclaration twoContexts fooX "f" 0)
          fooY "f" 1) 1 ("f" ++ "1") = none ∧
      childOf
        (createFunctionDeclaration (createFunctionDeclaration twoContexts fooX "f" 0)
          fooY "f" 1) 1 ("f" ++ "2") = some 3 := by
  decide

/-- C8, amended: the suffix sequence is kept per name, across contexts: on a fresh
factory, registering a name once under a context `A` and then once under a distinct
context `B` attaches the first node under `name + "1"` in `A` and the second under
`name + "2"` in `B`; what `B` holds under `name + "1"` is not touched. -/
theorem overload_suffix_shared_across_contexts (heap : Heap) (name : String) (A B : Ref)
    (nodeA nodeB : RawNode) (hA : A < heap.length) (hB : B < heap.length) (hAB : A ≠ B) :
    childOf
        (createFunctionDeclaration
          (createFunctionDeclaration (Factory.create heap) nodeA name A) nodeB name B)
        A (name ++ "1") = some heap.length ∧
      childOf
        (createFunctionDeclaration
          (createFunctionDeclaration (Factory.create heap) nodeA name A) nodeB name B)
        B (name ++ "2") = some (heap.length + 1) ∧
      childOf
        (createFunctionDeclaration
          (createFunctionDeclaration (Factory.create heap) nodeA name A) nodeB name B)
        B (name ++ "1") = childOf (Factory.create heap) B (name ++ "1") := by
  have hlen : (createFunctionDeclaration (Factory.create heap) nodeA name A).heap.length
      = heap.length + 1 := createFunctionDeclaration_heap_length _ _ _ _
  have hc : counter (createFunctionDeclaration (Factory.create heap) nodeA name A) name = 1 :=
    counter_createFunctionDeclaration _ _ _ _
  have hA₁ : A < (createFunctionDeclaration (Factory.create heap) nodeA name A).heap.length := by
    rw [hlen]
    exact Nat.lt_succ_of_lt hA
  have hB₁ : B < (createFunctionDeclaration (Factory.create heap) nodeA name A).heap.length := by
    rw [hlen]
    exact Nat.lt_succ_of_lt hB
  have hself₁ := childOf_createFunctionDeclaration_self (Factory.create heap) nodeA name A hA
  have hself₂ := childOf_createFunctionDeclaration_self
    (createFunctionDeclaration (Factory.create heap) nodeA name A) nodeB name B hB₁
  rw [hc, hlen] at hself₂
  rw [counter_create] at hself₁
  have hkey : name ++ toString
      (counter (createFunctionDeclaration (Factory.create heap) nodeA name A) name + 1)
      ≠ name ++ "1" := by
    rw [hc]
    intro h
    have hd := congrArg String.data h
    simp only [String.data_append] at hd
    exact absurd (List.append_cancel_left hd) (by decide)
  refine ⟨?_, hself₂, ?_⟩
  · rw [childOf_createFunctionDeclaration_of_ne _ nodeB name _ hA₁ (Ne.symm hAB)]
    exact hself₁
  · rw [childOf_createFunctionDeclaration_of_ne_key _ nodeB name B B _ hB₁ hkey]
    exact childOf_createFunctionDeclaration_of_ne _ nodeA name _ hB hAB

/-- C8, amended, at a sample input: `f` under `A`, then `f` under `B`. -/
theorem overload_suffix_shared_across_contexts_witness :
    childOf
        (createFunctionDeclaration (createFunctionDeclaration twoContexts fooX "f" 0)
          fooY "f" 1) 1 ("f" ++ "2") = some 3 :=
  (overload_suffix_shared_across_contexts [NamespaceNode.new "A", NamespaceNode.new "B"]
    "f" 0 1 fooX fooY (by decide) (by decide) (by decide)).2.1

/-! ## C9: overload counters never decrease -/

/-- C9: for every factory operation and every name, the counter stored for the name
after the operation is at least the counter before it (an absent counter counting as
`0`); `createFunctionDeclaration(node, name, ctx)` raises the counter of `name` by
exactly `1` and leaves the entry of every other name as it is. -/
theorem counters_monotone (s : State) (op : Op) (name name' : String) (node : RawNode)
    (context : Ref) :
    counter s name ≤ counter (step s op) name ∧
      counter (createFunctionDeclaration s node name context) name = counter s name + 1 ∧
      (name' ≠ name →
        (createFunctionDeclaration s node name context)._functionDeclarations.get name'
          = s._functionDeclarations.get name') := by
  refine ⟨?_, counter_createFunctionDeclaration s node name context, ?_⟩
  · rw [counter_step]
    exact Nat.le_add_right _ _
  · intro h
    exact get_createFunctionDeclaration_of_ne s node context (Ne.symm h)

/-- C9 at a sample input: registering `f` leaves the absent counter of `g` absent. -/
theorem counters_monotone_witness :
    (createFunctionDeclaration inModule fooX "f" 0)._functionDeclarations.get "g"
      = inModule._functionDeclarations.get "g" :=
  (counters_monotone inModule (.createModuleNode "m") "f" "g" fooX 0).2.2 (by decide)

/-! ## C10: bare-name resolution -/

/-- C10: when a name is supplied and the context is absent, or is a node that is neither
a ModuleNode nor a NamespaceNode, or is a NamespaceNode while no symbol-resolution session
is active, `createPropertyNode` uses the supplied name unchanged as the registry key: the
call does exactly what the context-less call with the same name does, the returned node
is registered under `name`, and a context-less call with the same name that follows
returns the same instance. -/
theorem bare_name_resolution (env env' : Env) (s : State) (node node' : RawNode)
    (name : String) (context : Option Ref)
    (h : context = none ∨ ∃ r o, context = some r ∧ s.heap[r]? = some o ∧
      ((o.kind ≠ .moduleNode ∧ o.kind ≠ .namespaceNode) ∨
        (o.kind = .namespaceNode ∧ env.checker.current = none))) :
    qualifiedName env s.heap node name context = name ∧
      createPropertyNode env s node (some name) context
        = createPropertyNode env s node (some name) none ∧
      (createPropertyNode env s node (some name) context).1._propDeclarations.get name
        = some (createPropertyNode env s node (some name) context).2 ∧
      (createPropertyNode env' (createPropertyNode env s node (some name) context).1
          node' (some name) none).2
        = (createPropertyNode env s node (some name) context).2 := by
  have hq : qualifiedName env s.heap node name context = name := by
    rcases h with h | ⟨r, o, hc, ho, hkind⟩
    · subst h
      rfl
    · subst hc
      unfold qualifiedName
      rcases hkind with ⟨hm, hn⟩ | ⟨hn, hcur⟩
      · cases env.checker.current <;> simp [ho, hm, hn]
      · simp [ho, hn, hcur]
  have hget := createPropertyNode_get env s node name context
  rw [hq] at hget
  refine ⟨hq, ?_, hget, ?_⟩
  · simp only [createPropertyNode, hq, qualifiedName_none]
  · rw [createPropertyNode_registered env' _ node' name none _ hget]

/-- C10 at a sample input: under a NamespaceNode and without a session, `foo` is
registered under the bare key `foo`. -/
theorem bare_name_resolution_witness :
    (createPropertyNode envNoSession inNamespace fooX (some "foo") (some 0)).1._propDeclarations
      = [("foo", 1)] ∧
    qualifiedName envNoSession inNamespace.heap fooX "foo" (some 0) = "foo" :=
  ⟨by decide,
    (bare_name_resolution envNoSession envNoSession inNamespace fooX fooY "foo" (some 0)
      (Or.inr ⟨0, NamespaceNode.new "ns", rfl, rfl, Or.inr ⟨rfl, rfl⟩⟩)).1⟩

/-! ## C6: module disambiguation -/

theorem module_key_ne (m₁ m₂ name : String) (h : m₁ ≠ m₂) :
    m₁ ++ "$" ++ name ≠ m₂ ++ "$" ++ name := by
  intro e
  rw [String.append_assoc, String.append_assoc] at e
  have hd := congrArg String.data e
  simp only [String.data_append] at hd
  exact h (String.ext (List.append_cancel_right hd))

/-- C6: on a fresh factory, for every name and every two ModuleNode contexts whose names
`m₁` and `m₂` differ, `createPropertyNode(n₁, name, module m₁)` followed by
`createPropertyNode(n₂, name, module m₂)` registers two newly constructed nodes, the
first under the key `m₁ + "$" + name` and the second under `m₂ + "$" + name`; the two
keys are different and so are the two returned nodes. -/
theorem module_disambiguation (env₁ env₂ : Env) (heap : Heap) (n₁ n₂ : RawNode)
    (name : String) (c₁ c₂ : Ref) (o₁ o₂ : Obj) (m₁ m₂ : String)
    (h₁ : heap[c₁]? = some o₁) (hk₁ : o₁.kind = .moduleNode) (hn₁ : o₁.name = some m₁)
    (h₂ : heap[c₂]? = some o₂) (hk₂ : o₂.kind = .moduleNode) (hn₂ : o₂.name = some m₂)
    (hne : m₁ ≠ m₂) :
    (createPropertyNode env₂
        (createPropertyNode env₁ (Factory.create heap) n₁ (some name) (some c₁)).1
        n₂ (some name) (some c₂)).1._propDeclarations
      = [(m₁ ++ "$" ++ name, heap.length), (m₂ ++ "$" ++ name, heap.length + 1)] ∧
    (createPropertyNode env₁ (Factory.create heap) n₁ (some name) (some c₁)).2
      = heap.length ∧
    (createPropertyNode env₂
        (createPropertyNode env₁ (Factory.create heap) n₁ (some name) (some c₁)).1
        n₂ (some name) (some c₂)).2 = heap.length + 1 ∧
    m₁ ++ "$" ++ name ≠ m₂ ++ "$" ++ name ∧
    (createPropertyNode env₁ (Factory.create heap) n₁ (some name) (some c₁)).2
      ≠ (createPropertyNode env₂
          (createPropertyNode env₁ (Factory.create heap) n₁ (some name) (some c₁)).1
          n₂ (some name) (some c₂)).2 := by
  have hkey := module_key_ne m₁ m₂ name hne
  have hq₁ : qualifiedName env₁ (Factory.create heap).heap n₁ name (some c₁)
      = m₁ ++ "$" ++ name := qualifiedName_module env₁ heap n₁ name c₁ o₁ m₁ h₁ hk₁ hn₁
  have hfresh₁ : (Factory.create heap)._propDeclarations.get
      (qualifiedName env₁ (Factory.create heap).heap n₁ name (some c₁)) = none := rfl
  rw [createPropertyNode_fresh env₁ _ n₁ name (some c₁) hfresh₁, hq₁]
  have hq₂ : qualifiedName env₂ (heap ++ [PropertyNode.new n₁]) n₂ name (some c₂)
      = m₂ ++ "$" ++ name :=
    qualifiedName_module env₂ _ n₂ name c₂ o₂ m₂
      ((getElem?_alloc_of_lt heap _ (lt_of_getElem?_eq_some h₂)).trans h₂) hk₂ hn₂
  have hfresh₂ : (JsObject.set (Factory.create heap)._propDeclarations (m₁ ++ "$" ++ name)
      (Factory.create heap).heap.length).get
        (qualifiedName env₂ ((Factory.create heap).heap ++ [PropertyNode.new n₁]) n₂ name
          (some c₂)) = none := by
    show (JsObject.set [] (m₁ ++ "$" ++ name) heap.length).get
      (qualifiedName env₂ (heap ++ [PropertyNode.new n₁]) n₂ name (some c₂)) = none
    rw [hq₂]
    simp [JsObject.set, JsObject.get, hkey]
  rw [createPropertyNode_fresh env₂ _ n₂ name (some c₂) hfresh₂]
  refine ⟨?_, rfl, ?_, hkey, ?_⟩
  · show JsObject.set (JsObject.set [] (m₁ ++ "$" ++ name) heap.length)
      (qualifiedName env₂ (heap ++ [PropertyNode.new n₁]) n₂ name (some c₂))
      (heap ++ [PropertyNode.new n₁]).length = _
    rw [hq₂]
    simp [JsObject.set, hkey]
  · show (heap ++ [PropertyNode.new n₁]).length = heap.length + 1
    simp
  · show heap.length ≠ (heap ++ [PropertyNode.new n₁]).length
    simp

/-- C6 at a sample input: `foo` in module `m1` and `foo` in module `m2`. -/
theorem module_disambiguation_witness :
    (createPropertyNode envNoSession
        (createPropertyNode envNoSession twoModules fooX (some "foo") (some 0)).1
        fooY (some "foo") (some 1)).1._propDeclarations
      = [("m1$foo", 2), ("m2$foo", 3)] :=
  (module_disambiguation envNoSession envNoSession [ModuleNode.new "m1", ModuleNode.new "m2"]
    fooX fooY "foo" 0 1 (ModuleNode.new "m1") (ModuleNode.new "m2") "m1" "m2"
    rfl rfl rfl rfl rfl rfl (by decide)).1

/-! ## C7: merge idempotence -/

theorem mem_foldl_addMember (present ms : List Member) (m : Member) (h : m ∈ ms) :
    m ∈ ms.foldl addMember present := by
  rw [foldl_addMember, List.mem_append, mem_novelMembers]
  by_cases hp : m ∈ present
  · exact Or.inl hp
  · exact Or.inr ⟨h, hp⟩

theorem foldl_addMember_of_subset (present ms : List Member) (h : ∀ m ∈ ms, m ∈ present) :
    ms.foldl addMember present = present := by
  rw [foldl_addMember, novelMembers_eq_nil present ms h, List.append_nil]

/-- C7: for a registered qualified name, calling `createPropertyNode` again with a syntax
node all of whose members are structurally equal to members already present on the
registered node changes nothing at all (no member is appended) and returns the registered
instance; so does a node contributing zero members; and so does a call with a node that
the call just before has registered or merged under this name. -/
theorem merge_idempotent (env : Env) (s : State) (node : RawNode) (name : String)
    (context : Option Ref) (r : Ref)
    (hreg : s._propDeclarations.get (qualifiedName env s.heap node name context) = some r) :
    ((∀ o, s.heap[r]? = some o → ∀ m ∈ getMembersFromNode node, m ∈ o.members) →
        createPropertyNode env s node (some name) context = (s, r)) ∧
      (getMembersFromNode node = [] →
        createPropertyNode env s node (some name) context = (s, r)) ∧
      createPropertyNode env (createPropertyNode env s node (some name) context).1
          node (some name) context
        = ((createPropertyNode env s node (some name) context).1, r) := by
  have hnoop : ∀ (t : State), t._propDeclarations.get
      (qualifiedName env t.heap node name context) = some r →
      (∀ o, t.heap[r]? = some o → ∀ m ∈ getMembersFromNode node, m ∈ o.members) →
      createPropertyNode env t node (some name) context = (t, r) := by
    intro t ht hmem
    rw [createPropertyNode_registered env t node name context r ht]
    have hheap : t.heap.update r (fun o => o.maybeAddMember (getMembersFromNode node))
        = t.heap := by
      apply Heap.update_eq_self
      intro o ho
      simp only [Obj.maybeAddMember, foldl_addMember_of_subset _ _ (hmem o ho)]
    rw [hheap]
  refine ⟨hnoop s hreg, ?_, ?_⟩
  · intro hnil
    apply hnoop s hreg
    intro o _ m hm
    rw [hnil] at hm
    cases hm
  · rw [createPropertyNode_registered env s node name context r hreg]
    apply hnoop
    · show s._propDeclarations.get (qualifiedName env (s.heap.update r _) node name context)
        = some r
      rw [qualifiedName_update env s.heap r
        (fun o => o.maybeAddMember (getMembersFromNode node)) node name context
        (fun o => ⟨rfl, rfl⟩)]
      exact hreg
    · intro o ho m hm
      simp only [Heap.getElem?_update_self] at ho
      cases hr : s.heap[r]? with
      | none => simp [hr] at ho
      | some o₀ =>
        simp only [hr, Option.map_some', Option.some.injEq] at ho
        subst ho
        exact mem_foldl_addMember _ _ m hm

/-- C7 at a sample input: `foo` registered with member `X`, then once more with the same
members: the state does not change. -/
theorem merge_idempotent_witness :
    createPropertyNode envNoSession fooRegistered fooX (some "foo") none
      = (fooRegistered, 0) :=
  (merge_idempotent envNoSession fooRegistered fooX "foo" none 0 (by decide)).1 (by decide)

/-! ## C5: anonymous declarations -/

theorem createPropertyNode_ref_lt (env : Env) (s : State) (node : RawNode)
    (name : Option String) (context : Option Ref) (hwf : WellFormed s) :
    (createPropertyNode env s node name context).2
      < (createPropertyNode env s node name context).1.heap.length := by
  cases name with
  | none => simp [createPropertyNode, alloc]
  | some name =>
    cases h : s._propDeclarations.get (qualifiedName env s.heap node name context) with
    | none => simp [createPropertyNode_fresh env s node name context h]
    | some r =>
      simp only [createPropertyNode_registered env s node name context r h, Heap.length_update]
      exact hwf.props_live _ r h

theorem step_membersOf (s : State) (op : Op) (r : Ref) (hr : r < s.heap.length)
    (hnot : ∀ q, s._propDeclarations.get q ≠ some r) :
    membersOf (step s op) r = membersOf s r := by
  cases op with
  | createModuleNode name =>
    cases h : s._modules.get name with
    | none =>
      simp only [step, createModuleNode_fresh s name h, membersOf, getElem?_alloc_of_lt _ _ hr]
    | some m => simp only [step, createModuleNode_registered s name m h]
  | createFunctionDeclaration node name context =>
    simp only [step, createFunctionDeclaration_eq, membersOf]
    by_cases e : context = r
    · subst e
      rw [Heap.getElem?_update_self, getElem?_alloc_of_lt _ _ hr]
      cases s.heap[context]? <;> rfl
    · rw [Heap.getElem?_update_of_ne _ _ e, getElem?_alloc_of_lt _ _ hr]
  | createPropertyNode env node name context =>
    cases name with
    | none => simp only [step, createPropertyNode, alloc, membersOf, getElem?_alloc_of_lt _ _ hr]
    | some name =>
      cases h : s._propDeclarations.get (qualifiedName env s.heap node name context) with
      | none =>
        simp only [step, createPropertyNode_fresh env s node name context h, membersOf,
          getElem?_alloc_of_lt _ _ hr]
      | some r' =>
        have e : r' ≠ r := fun e => hnot _ (e ▸ h)
        simp only [step, createPropertyNode_registered env s node name context r' h, membersOf,
          Heap.getElem?_update_of_ne _ _ e]
  | createNamespaceNode name =>
    simp only [step, createNamespaceNode, alloc, membersOf, getElem?_alloc_of_lt _ _ hr]
  | createImportNode node =>
    simp only [step, createImportNode, alloc, membersOf, getElem?_alloc_of_lt _ _ hr]
  | createExportNode node =>
    simp only [step, createExportNode, alloc, membersOf, getElem?_alloc_of_lt _ _ hr]
  | createExportDeclarationNode node =>
    simp only [step, createExportDeclarationNode, alloc, membersOf,
      getElem?_alloc_of_lt _ _ hr]

theorem Extends.not_registered {heap heap' : Heap} {t t' : JsObject Ref}
    (h : Extends heap heap' t t') {r : Ref} (hr : r < heap.length)
    (hnot : ∀ q, t.get q ≠ some r) : ∀ q, t'.get q ≠ some r := by
  intro q hq
  rcases h with h | ⟨k, _, hset, _⟩
  · rw [h] at hq
    exact hnot q hq
  · rw [hset] at hq
    by_cases e : k = q
    · subst e
      rw [JsObject.get_set_self] at hq
      cases hq
      exact lt_irrefl _ hr
    · rw [JsObject.get_set_of_ne _ _ e] at hq
      exact hnot q hq

theorem run_unregistered (s : State) (ops : List Op) (r : Ref) (hr : r < s.heap.length)
    (hnot : ∀ q, s._propDeclarations.get q ≠ some r) :
    (∀ q, (run s ops)._propDeclarations.get q ≠ some r) ∧
      membersOf (run s ops) r = membersOf s r := by
  induction ops generalizing s with
  | nil => exact ⟨hnot, rfl⟩
  | cons op ops ih =>
    have h := ih (step s op) (lt_of_lt_of_le hr (step_heap_length s op))
      ((step_propDeclarations s op).not_registered hr hnot)
    exact ⟨h.1, h.2.trans (step_membersOf s op r hr hnot)⟩

/-- C5: in a run from a fresh factory, `createPropertyNode` called with no name returns a
newly constructed DeclarationNode wrapping the syntax node: it is distinct from every
object that existed before, so from the node `r₁` returned by any earlier
`createPropertyNode` call (also an anonymous one on the very same syntax node); the call
leaves the three tables unchanged; and after any further sequence of factory operations
the node is bound to no qualified name and its member collection is still the one of its
syntax node, so no later call merges into it. -/
theorem anonymous_fresh (s₀ : State) (h₀ : Reachable s₀) (env₀ env : Env)
    (node₀ node : RawNode) (name₀ : Option String) (context₀ context : Option Ref)
    (ops ops' : List Op) (s₁ s : State) (r₁ r : Ref)
    (h₁ : createPropertyNode env₀ s₀ node₀ name₀ context₀ = (s₁, r₁))
    (h : createPropertyNode env (run s₁ ops) node none context = (s, r)) :
    r ≠ r₁ ∧
      (∀ r', r' < (run s₁ ops).heap.length → r ≠ r') ∧
      s.heap = (run s₁ ops).heap ++ [PropertyNode.new node] ∧
      s.heap[r]? = some (PropertyNode.new node) ∧
      s._propDeclarations = (run s₁ ops)._propDeclarations ∧
      s._modules = (run s₁ ops)._modules ∧
      s._functionDeclarations = (run s₁ ops)._functionDeclarations ∧
      (∀ q, (run s ops')._propDeclarations.get q ≠ some r) ∧
      membersOf (run s ops') r = some (getMembersFromNode node) := by
  have hwf₀ := wellFormed_of_reachable h₀
  have hlt₁ := createPropertyNode_ref_lt env₀ s₀ node₀ name₀ context₀ hwf₀
  have hwf₁ : WellFormed s₁ := by
    have := wellFormed_step s₀ (.createPropertyNode env₀ node₀ name₀ context₀) hwf₀
    simpa [step, h₁] using this
  rw [h₁] at hlt₁
  have hwf := wellFormed_run s₁ ops hwf₁
  have hlen := run_heap_length s₁ ops
  simp only [createPropertyNode, alloc, Prod.mk.injEq] at h
  obtain ⟨hs, hr⟩ := h
  subst hs
  subst hr
  have hnot : ∀ q, (run s₁ ops)._propDeclarations.get q ≠ some (run s₁ ops).heap.length :=
    fun q hq => lt_irrefl _ (hwf.props_live q _ hq)
  have hrun := run_unregistered
    { run s₁ ops with heap := (run s₁ ops).heap ++ [PropertyNode.new node] } ops'
    (run s₁ ops).heap.length (by simp) hnot
  refine ⟨?_, ?_, rfl, getElem?_alloc_self _ _, rfl, rfl, rfl, hrun.1, ?_⟩
  · exact Nat.ne_of_gt (lt_of_lt_of_le hlt₁ hlen)
  · intro r' hr'
    exact Nat.ne_of_gt hr'
  · rw [hrun.2]
    simp [membersOf, getElem?_alloc_self, PropertyNode.new]

/-- C5 at a sample input: two anonymous calls on the very same syntax node return two
distinct nodes. -/
theorem anonymous_fresh_witness :
    (createPropertyNode envNoSession
        (createPropertyNode envNoSession (Factory.create []) fooX none none).1
        fooX none none).2
      ≠ (createPropertyNode envNoSession (Factory.create []) fooX none none).2 :=
  (anonymous_fresh (Factory.create []) ⟨[], [], rfl⟩ envNoSession envNoSession fooX fooX
    none none none [] [] _ _ _ _ rfl rfl).1

/-! ## C11: namespace resolution with a session -/

theorem qualifiedName_namespace (env : Env) (session : TypeChecker) (heap : Heap)
    (node : RawNode) (name : String) (c : Ref) (o : Obj) (hc : heap[c]? = some o)
    (hk : o.kind = .namespaceNode) (hcur : env.checker.current = some session) :
    qualifiedName env heap node name (some c)
      = env.getFullyQualifiedName (session.getSymbolAtLocation node.name) node.name false := by
  unfold qualifiedName
  simp [hc, hk, hcur]

/-- C11: when a name is supplied, the context is a NamespaceNode and a symbol-resolution
session is active, the registry key used by `createPropertyNode` is
`getFullyQualifiedName(session.getSymbolAtLocation(node.name), node.name, false)`: the
returned node is registered under that key, and the call does the same whatever name the
caller passes. -/
theorem namespace_resolution (env : Env) (session : TypeChecker) (s : State) (node : RawNode)
    (name name' : String) (c : Ref) (o : Obj) (hc : s.heap[c]? = some o)
    (hk : o.kind = .namespaceNode) (hcur : env.checker.current = some session) :
    qualifiedName env s.heap node name (some c)
        = env.getFullyQualifiedName (session.getSymbolAtLocation node.name) node.name false ∧
      (createPropertyNode env s node (some name) (some c)).1._propDeclarations.get
          (env.getFullyQualifiedName (session.getSymbolAtLocation node.name) node.name false)
        = some (createPropertyNode env s node (some name) (some c)).2 ∧
      createPropertyNode env s node (some name') (some c)
        = createPropertyNode env s node (some name) (some c) := by
  have hq := qualifiedName_namespace env session s.heap node name c o hc hk hcur
  have hq' := qualifiedName_namespace env session s.heap node name' c o hc hk hcur
  have hget := createPropertyNode_get env s node name (some c)
  rw [hq] at hget
  refine ⟨hq, hget, ?_⟩
  simp only [createPropertyNode, hq, hq']

/-- C11 at a sample input: under the namespace at reference `0`, with a session, the
declaration of `foo` is registered under the path of its symbol, not under the name
passed by the caller. -/
theorem namespace_resolution_witness :
    (createPropertyNode envSession inNamespace fooX (some "other") (some 0)).1._propDeclarations
      = [("foo", 1)] ∧
    qualifiedName envSession inNamespace.heap fooX "other" (some 0) = "foo" :=
  ⟨by decide,
    (namespace_resolution envSession { getSymbolAtLocation := fun ident => ident.text }
      inNamespace fooX "other" "foo" 0 (NamespaceNode.new "ns") rfl rfl rfl).1⟩

/-! ## C12: the empty string is a name -/

theorem qualifiedName_createPropertyNode (env' env : Env) (s : State) (node node' : RawNode)
    (name : Option String) (name' : String) (context context' : Option Ref)
    (hlive : ∀ r, context' = some r → r < s.heap.length) :
    qualifiedName env' (createPropertyNode env s node name context).1.heap node' name' context'
      = qualifiedName env' s.heap node' name' context' := by
  cases name with
  | none => exact qualifiedName_alloc env' s.heap _ node' name' context' hlive
  | some name =>
    cases h : s._propDeclarations.get (qualifiedName env s.heap node name context) with
    | none =>
      rw [createPropertyNode_fresh env s node name context h]
      exact qualifiedName_alloc env' s.heap _ node' name' context' hlive
    | some r =>
      rw [createPropertyNode_registered env s node name context r h]
      exact qualifiedName_update env' s.heap r _ node' name' context' (fun o => ⟨rfl, rfl⟩)

/-- C12, as stated, fails for a NamespaceNode context with an active session: the key is
then the path of the symbol of the node, so two calls with the name `""` under the same
context, for declarations of different symbols, return two distinct nodes. -/
theorem empty_name_same_context_distinct :
    (createPropertyNode envSession
        (createPropertyNode envSession inNamespace fooX (some "") (some 0)).1
        barY (some "") (some 0)).2
      ≠ (createPropertyNode envSession inNamespace fooX (some "") (some 0)).2 := by
  decide

/-- C12, amended: the empty string is a name, not an omitted one: for every two syntax
nodes `n₁`, `n₂` and every (live) context, if `createPropertyNode(n₂, "", ctx)` resolves to
the same qualified name as `createPropertyNode(n₁, "", ctx)` before it, the first call
registers its node and the second returns that same DeclarationNode; two calls with no name
at all return two distinct nodes. -/
theorem empty_name_registered (env₁ env₂ : Env) (s : State) (n₁ n₂ : RawNode)
    (context : Option Ref) (hlive : ∀ r, context = some r → r < s.heap.length)
    (hsame : qualifiedName env₂ s.heap n₂ "" context
      = qualifiedName env₁ s.heap n₁ "" context) :
    (createPropertyNode env₂ (createPropertyNode env₁ s n₁ (some "") context).1
        n₂ (some "") context).2
      = (createPropertyNode env₁ s n₁ (some "") context).2 ∧
    (createPropertyNode env₁ s n₁ (some "") context).1._propDeclarations.get
        (qualifiedName env₁ s.heap n₁ "" context)
      = some (createPropertyNode env₁ s n₁ (some "") context).2 ∧
    (createPropertyNode env₂ (createPropertyNode env₁ s n₁ none context).1
        n₂ none context).2
      ≠ (createPropertyNode env₁ s n₁ none context).2 := by
  have hget := createPropertyNode_get env₁ s n₁ "" context
  have hkey : qualifiedName env₂ (createPropertyNode env₁ s n₁ (some "") context).1.heap
      n₂ "" context = qualifiedName env₁ s.heap n₁ "" context := by
    rw [qualifiedName_createPropertyNode env₂ env₁ s n₁ n₂ (some "") "" context context hlive,
      hsame]
  refine ⟨?_, hget, ?_⟩
  · rw [← hkey] at hget
    rw [createPropertyNode_registered env₂ _ n₂ "" context _ hget]
  · simp [createPropertyNode, alloc]

/-- C12, amended, at a sample input: two declarations registered under the name `""` in
the module at reference `0` are one node. -/
theorem empty_name_registered_witness :
    (createPropertyNode envNoSession
        (createPropertyNode envNoSession inModule fooX (some "") (some 0)).1
        barY (some "") (some 0)).2
      = (createPropertyNode envNoSession inModule fooX (some "") (some 0)).2 :=
  (empty_name_registered envNoSession envNoSession inModule fooX barY (some 0)
    (by intro r h; cases h; decide) (by decide)).1

/-! ## C13: function declarations never merge -/

theorem createPropertyNode_frame (env : Env) (t : State) (node : RawNode)
    (name : Option String) (context : Option Ref) (r : Ref) (hr : r < t.heap.length)
    (hnot : ∀ q, t._propDeclarations.get q ≠ some r) :
    (createPropertyNode env t node name context).2 ≠ r ∧
      (createPropertyNode env t node name context).1.heap[r]? = t.heap[r]? := by
  cases name with
  | none =>
    simp only [createPropertyNode, alloc]
    exact ⟨Nat.ne_of_gt hr, getElem?_alloc_of_lt _ _ hr⟩
  | some name =>
    cases h : t._propDeclarations.get (qualifiedName env t.heap node name context) with
    | none =>
      rw [createPropertyNode_fresh env t node name context h]
      exact ⟨Nat.ne_of_gt hr, getElem?_alloc_of_lt _ _ hr⟩
    | some r' =>
      have e : r' ≠ r := fun e => hnot _ (e ▸ h)
      rw [createPropertyNode_registered env t node name context r' h]
      exact ⟨e, Heap.getElem?_update_of_ne _ _ e⟩

/-- C13: in a run from a fresh factory, `createFunctionDeclaration(node, name, ctx)`
constructs a new DeclarationNode on every call, an object that did not exist before; it
leaves the declaration registry and the module registry as they are and its effect does
not depend on them; the new node is bound to no qualified name, so after any further
operations a `createPropertyNode` call (with the same name or any other) neither returns
it nor changes it, and its member collection is still the one of its syntax node. -/
theorem function_declarations_never_merge (s : State) (hs : Reachable s) (node : RawNode)
    (name : String) (context : Ref) (hctx : context < s.heap.length) (ops : List Op)
    (env : Env) (node₂ : RawNode) (name₂ : Option String) (context₂ : Option Ref)
    (modules props : JsObject Ref) :
    s.heap[s.heap.length]? = none ∧
      (createFunctionDeclaration s node name context).heap[s.heap.length]?
        = some (PropertyNode.new node) ∧
      (createFunctionDeclaration s node name context)._propDeclarations
        = s._propDeclarations ∧
      (createFunctionDeclaration s node name context)._modules = s._modules ∧
      createFunctionDeclaration { s with _modules := modules, _propDeclarations := props }
          node name context
        = { createFunctionDeclaration s node name context with
            _modules := modules, _propDeclarations := props } ∧
      (createPropertyNode env (run (createFunctionDeclaration s node name context) ops)
          node₂ name₂ context₂).2 ≠ s.heap.length ∧
      (createPropertyNode env (run (createFunctionDeclaration s node name context) ops)
          node₂ name₂ context₂).1.heap[s.heap.length]?
        = (run (createFunctionDeclaration s node name context) ops).heap[s.heap.length]? ∧
      membersOf (run (createFunctionDeclaration s node name context) ops) s.heap.length
        = some (getMembersFromNode node) := by
  have hwf := wellFormed_of_reachable hs
  have hnew := getElem?_createFunctionDeclaration_new s node name context hctx
  have hlt : s.heap.length < (createFunctionDeclaration s node name context).heap.length := by
    rw [createFunctionDeclaration_heap_length]
    exact Nat.lt_succ_self _
  have hnot : ∀ q, (createFunctionDeclaration s node name context)._propDeclarations.get q
      ≠ some s.heap.length := fun q hq => lt_irrefl _ (hwf.props_live q _ hq)
  have hrun := run_unregistered _ ops s.heap.length hlt hnot
  have hframe := createPropertyNode_frame env
    (run (createFunctionDeclaration s node name context) ops) node₂ name₂ context₂
    s.heap.length (lt_of_lt_of_le hlt (run_heap_length _ ops)) hrun.1
  refine ⟨List.getElem?_eq_none (le_refl _), hnew, rfl, rfl, rfl, hframe.1, hframe.2, ?_⟩
  rw [hrun.2]
  simp only [membersOf, hnew, Option.map_some', PropertyNode.new]

/-- C13 at a sample input: `foo` attached as a function declaration to the module at
reference `0`, then `foo` registered as a declaration: the second node is another one
and the first keeps its one member. -/
theorem function_declarations_never_merge_witness :
    (createPropertyNode envNoSession (run (createFunctionDeclaration inModule fooX "foo" 0) [])
        fooY (some "foo") none).2 ≠ 1 ∧
      membersOf
        (createPropertyNode envNoSession (createFunctionDeclaration inModule fooX "foo" 0)
          fooY (some "foo") none).1 1 = some ["X"] :=
  ⟨(function_declarations_never_merge inModule ⟨[ModuleNode.new "m"], [], rfl⟩ fooX "foo" 0
      (by decide) [] envNoSession fooY (some "foo") none [] []).2.2.2.2.2.1, by decide⟩

/-! ## C14: the simple constructors -/

/-- C14: `createNamespaceNode`, `createImportNode`, `createExportNode` and
`createExportDeclarationNode` leave the module registry, the declaration registry and the
overload counters unchanged and return a newly constructed object, one that did not exist
before; two `createNamespaceNode` calls with the same name, whatever operations come in
between, return two distinct nodes. -/
theorem simple_constructors_stateless (s : State) (name : String) (node : RawNode)
    (ops : List Op) :
    createNamespaceNode s name
        = ({ s with heap := s.heap ++ [NamespaceNode.new name] }, s.heap.length) ∧
      createImportNode s node
        = ({ s with heap := s.heap ++ [ImportNode.new node] }, s.heap.length) ∧
      createExportNode s node
        = ({ s with heap := s.heap ++ [ExportNode.new node] }, s.heap.length) ∧
      createExportDeclarationNode s node
        = ({ s with heap := s.heap ++ [ExportDeclarationNode.new node] }, s.heap.length) ∧
      s.heap[s.heap.length]? = none ∧
      (createNamespaceNode (run (createNamespaceNode s name).1 ops) name).2
        ≠ (createNamespaceNode s name).2 := by
  refine ⟨rfl, rfl, rfl, rfl, List.getElem?_eq_none (le_refl _), ?_⟩
  have hlen := run_heap_length (createNamespaceNode s name).1 ops
  have h₁ : (createNamespaceNode s name).1.heap.length = s.heap.length + 1 := by
    simp [createNamespaceNode, alloc]
  show (run (createNamespaceNode s name).1 ops).heap.length ≠ s.heap.length
  omega

/-! ## C15: module-qualified keys -/

theorem append_separator_inj (c : Char) (l₁ l₂ r₁ r₂ : List Char) (h₁ : c ∉ l₁) (h₂ : c ∉ l₂)
    (h : l₁ ++ c :: r₁ = l₂ ++ c :: r₂) : l₁ = l₂ ∧ r₁ = r₂ := by
  induction l₁ generalizing l₂ with
  | nil =>
    cases l₂ with
    | nil => exact ⟨rfl, by simpa using h⟩
    | cons b l₂ =>
      simp only [List.nil_append, List.cons_append, List.cons.injEq] at h
      exact absurd (List.mem_cons.mpr (Or.inl h.1)) h₂
  | cons a l₁ ih =>
    cases l₂ with
    | nil =>
      simp only [List.nil_append, List.cons_append, List.cons.injEq] at h
      exact absurd (List.mem_cons.mpr (Or.inl h.1.symm)) h₁
    | cons b l₂ =>
      simp only [List.cons_append, List.cons.injEq] at h
      have := ih l₂ (fun hc => h₁ (List.mem_cons_of_mem _ hc))
        (fun hc => h₂ (List.mem_cons_of_mem _ hc)) h.2
      exact ⟨by rw [h.1, this.1], this.2⟩

theorem module_key_inj (m₁ m₂ n₁ n₂ : String) (h₁ : '$' ∉ m₁.data) (h₂ : '$' ∉ m₂.data)
    (h : m₁ ++ "$" ++ n₁ = m₂ ++ "$" ++ n₂) : m₁ = m₂ ∧ n₁ = n₂ := by
  rw [String.append_assoc, String.append_assoc] at h
  have hd := congrArg String.data h
  simp only [String.data_append] at hd
  have := append_separator_inj '$' m₁.data m₂.data n₁.data n₂.data h₁ h₂ hd
  exact ⟨String.ext this.1, String.ext this.2⟩

/-- C15: for module names `m₁`, `m₂` that do not contain the character `$` and all names
`n₁`, `n₂`, if `(m₁, n₁)` differs from `(m₂, n₂)` then the keys `m₁ + "$" + n₁` and
`m₂ + "$" + n₂` differ, and on a factory where neither key is registered,
`createPropertyNode` under module `m₁` with name `n₁` and then under module `m₂` with name
`n₂` returns two distinct nodes, each registered under its own key. -/
theorem module_keys_injective (m₁ m₂ n₁ n₂ : String) (env₁ env₂ : Env) (s : State)
    (x₁ x₂ : RawNode) (c₁ c₂ : Ref) (o₁ o₂ : Obj)
    (hd₁ : '$' ∉ m₁.data) (hd₂ : '$' ∉ m₂.data) (hne : (m₁, n₁) ≠ (m₂, n₂))
    (h₁ : s.heap[c₁]? = some o₁) (hk₁ : o₁.kind = .moduleNode) (hn₁ : o₁.name = some m₁)
    (h₂ : s.heap[c₂]? = some o₂) (hk₂ : o₂.kind = .moduleNode) (hn₂ : o₂.name = some m₂)
    (hu₁ : s._propDeclarations.get (m₁ ++ "$" ++ n₁) = none)
    (hu₂ : s._propDeclarations.get (m₂ ++ "$" ++ n₂) = none) :
    m₁ ++ "$" ++ n₁ ≠ m₂ ++ "$" ++ n₂ ∧
      (createPropertyNode env₂ (createPropertyNode env₁ s x₁ (some n₁) (some c₁)).1
          x₂ (some n₂) (some c₂)).2
        ≠ (createPropertyNode env₁ s x₁ (some n₁) (some c₁)).2 ∧
      (createPropertyNode env₂ (createPropertyNode env₁ s x₁ (some n₁) (some c₁)).1
          x₂ (some n₂) (some c₂)).1._propDeclarations.get (m₁ ++ "$" ++ n₁)
        = some (createPropertyNode env₁ s x₁ (some n₁) (some c₁)).2 ∧
      (createPropertyNode env₂ (createPropertyNode env₁ s x₁ (some n₁) (some c₁)).1
          x₂ (some n₂) (some c₂)).1._propDeclarations.get (m₂ ++ "$" ++ n₂)
        = some (createPropertyNode env₂ (createPropertyNode env₁ s x₁ (some n₁) (some c₁)).1
            x₂ (some n₂) (some c₂)).2 := by
  have hkey : m₁ ++ "$" ++ n₁ ≠ m₂ ++ "$" ++ n₂ := by
    intro e
    have := module_key_inj m₁ m₂ n₁ n₂ hd₁ hd₂ e
    exact hne (by rw [this.1, this.2])
  have hq₁ := qualifiedName_module env₁ s.heap x₁ n₁ c₁ o₁ m₁ h₁ hk₁ hn₁
  have hfresh₁ : s._propDeclarations.get (qualifiedName env₁ s.heap x₁ n₁ (some c₁)) = none := by
    rw [hq₁]
    exact hu₁
  rw [createPropertyNode_fresh env₁ s x₁ n₁ (some c₁) hfresh₁, hq₁]
  have hq₂ : qualifiedName env₂ (s.heap ++ [PropertyNode.new x₁]) x₂ n₂ (some c₂)
      = m₂ ++ "$" ++ n₂ :=
    qualifiedName_module env₂ _ x₂ n₂ c₂ o₂ m₂
      ((getElem?_alloc_of_lt s.heap _ (lt_of_getElem?_eq_some h₂)).trans h₂) hk₂ hn₂
  have hfresh₂ : (s._propDeclarations.set (m₁ ++ "$" ++ n₁) s.heap.length).get
      (qualifiedName env₂ (s.heap ++ [PropertyNode.new x₁]) x₂ n₂ (some c₂)) = none := by
    rw [hq₂, JsObject.get_set_of_ne _ _ hkey]
    exact hu₂
  rw [createPropertyNode_fresh env₂ _ x₂ n₂ (some c₂) hfresh₂]
  refine ⟨hkey, ?_, ?_, ?_⟩
  · show (s.heap ++ [PropertyNode.new x₁]).length ≠ s.heap.length
    simp
  · show ((s._propDeclarations.set (m₁ ++ "$" ++ n₁) s.heap.length).set
        (qualifiedName env₂ (s.heap ++ [PropertyNode.new x₁]) x₂ n₂ (some c₂))
        (s.heap ++ [PropertyNode.new x₁]).length).get (m₁ ++ "$" ++ n₁) = some s.heap.length
    rw [hq₂, JsObject.get_set_of_ne _ _ (Ne.symm hkey)]
    exact JsObject.get_set_self _ _ _
  · show ((s._propDeclarations.set (m₁ ++ "$" ++ n₁) s.heap.length).set
        (qualifiedName env₂ (s.heap ++ [PropertyNode.new x₁]) x₂ n₂ (some c₂))
        (s.heap ++ [PropertyNode.new x₁]).length).get (m₂ ++ "$" ++ n₂)
      = some (s.heap ++ [PropertyNode.new x₁]).length
    rw [hq₂]
    exact JsObject.get_set_self _ _ _

/-- C15 at a sample input: `foo` and `bar` in the one module `m1`. -/
theorem module_keys_injective_witness :
    "m1" ++ "$" ++ "foo" ≠ "m1" ++ "$" ++ "bar" ∧
      (createPropertyNode envNoSession
          (createPropertyNode envNoSession twoModules fooX (some "foo") (some 0)).1
          barY (some "bar") (some 0)).2
        ≠ (createPropertyNode envNoSession twoModules fooX (some "foo") (some 0)).2 :=
  ⟨(module_keys_injective "m1" "m1" "foo" "bar" envNoSession envNoSession twoModules fooX barY
      0 0 (ModuleNode.new "m1") (ModuleNode.new "m1") (by decide) (by decide) (by decide)
      rfl rfl rfl rfl rfl rfl rfl rfl).1,
    (module_keys_injective "m1" "m1" "foo" "bar" envNoSession envNoSession twoModules fooX barY
      0 0 (ModuleNode.new "m1") (ModuleNode.new "m1") (by decide) (by decide) (by decide)
      rfl rfl rfl rfl rfl rfl rfl rfl).2.1⟩

/-! ## C16: two declarations under one qualified name -/

theorem Heap.update_alloc (h : Heap) (o : Obj) (f : Obj → Obj) :
    Heap.update (h ++ [o]) h.length f = h ++ [f o] := by
  unfold Heap.update
  rw [getElem?_alloc_self]
  simp

theorem createPropertyNode_merge_after_fresh (env₂ : Env) (s : State) (x₁ x₂ : RawNode)
    (key name₂ : String) (context₂ : Option Ref)
    (hq : qualifiedName env₂ (s.heap ++ [PropertyNode.new x₁]) x₂ name₂ context₂ = key) :
    createPropertyNode env₂
        { s with
          heap := s.heap ++ [PropertyNode.new x₁],
          _propDeclarations := s._propDeclarations.set key s.heap.length }
        x₂ (some name₂) context₂
      = ({ s with
            heap := s.heap ++ [(PropertyNode.new x₁).maybeAddMember (getMembersFromNode x₂)],
            _propDeclarations := s._propDeclarations.set key s.heap.length },
          s.heap.length) := by
  have hget : (s._propDeclarations.set key s.heap.length).get
      (qualifiedName env₂ (s.heap ++ [PropertyNode.new x₁]) x₂ name₂ context₂)
      = some s.heap.length := by
    rw [hq]
    exact JsObject.get_set_self _ _ _
  rw [createPropertyNode_registered env₂ _ x₂ name₂ context₂ s.heap.length hget]
  simp only [Heap.update_alloc]

theorem membersOf_merge_after_fresh (s t : State) (x₁ x₂ : RawNode)
    (ht : t.heap = s.heap ++ [(PropertyNode.new x₁).maybeAddMember (getMembersFromNode x₂)]) :
    membersOf t s.heap.length
      = some (getMembersFromNode x₁
          ++ novelMembers (getMembersFromNode x₁) (getMembersFromNode x₂)) := by
  simp only [membersOf, ht, getElem?_alloc_self, Option.map_some', Obj.maybeAddMember,
    foldl_addMember, PropertyNode.new]

/-- C16: the qualified name does not separate a module-scoped name from a bare name that
contains `$`.  Let `name` be registered first, under a ModuleNode named `m`, while the key
`m + "$" + name` is unregistered: the call constructs a new node `r₁` wrapping its syntax
node and registers it under that key.  Then a context-less call with the name
`m + "$" + name`, a different (context, name) pair, is merged into `r₁`: it returns `r₁`,
registers nothing, constructs no object, and the members of its syntax node are merged
into the member collection of `r₁`.  Likewise, when `name` is `b + "$" + y`, a call with
the name `y` under a module named `m + "$" + b` is merged into `r₁`. -/
theorem qualified_name_collision (env₁ env₂ : Env) (s s₁ : State) (x₁ x₂ : RawNode)
    (m name : String) (c r₁ : Ref) (o : Obj)
    (h : s.heap[c]? = some o) (hk : o.kind = .moduleNode) (hn : o.name = some m)
    (hu : s._propDeclarations.get (m ++ "$" ++ name) = none)
    (h₁ : createPropertyNode env₁ s x₁ (some name) (some c) = (s₁, r₁)) :
    (r₁ = s.heap.length ∧ s.heap[r₁]? = none ∧
        s₁.heap = s.heap ++ [PropertyNode.new x₁] ∧
        s₁._propDeclarations = s._propDeclarations.set (m ++ "$" ++ name) r₁) ∧
      (∀ (s₂ : State) (r₂ : Ref),
        createPropertyNode env₂ s₁ x₂ (some (m ++ "$" ++ name)) none = (s₂, r₂) →
        r₂ = r₁ ∧ s₂._propDeclarations = s₁._propDeclarations ∧
          s₂.heap.length = s₁.heap.length ∧
          membersOf s₂ r₁ = some (getMembersFromNode x₁
            ++ novelMembers (getMembersFromNode x₁) (getMembersFromNode x₂))) ∧
      (∀ (b y : String) (c' : Ref) (o' : Obj) (s₂ : State) (r₂ : Ref),
        name = b ++ "$" ++ y → s.heap[c']? = some o' → o'.kind = .moduleNode →
        o'.name = some (m ++ "$" ++ b) →
        createPropertyNode env₂ s₁ x₂ (some y) (some c') = (s₂, r₂) →
        r₂ = r₁ ∧ s₂._propDeclarations = s₁._propDeclarations ∧
          s₂.heap.length = s₁.heap.length ∧
          membersOf s₂ r₁ = some (getMembersFromNode x₁
            ++ novelMembers (getMembersFromNode x₁) (getMembersFromNode x₂))) := by
  have hq₁ := qualifiedName_module env₁ s.heap x₁ name c o m h hk hn
  have hfresh : s._propDeclarations.get (qualifiedName env₁ s.heap x₁ name (some c)) = none := by
    rw [hq₁]
    exact hu
  rw [createPropertyNode_fresh env₁ s x₁ name (some c) hfresh, hq₁] at h₁
  obtain ⟨hs₁, hr₁⟩ := Prod.mk.inj h₁
  subst hs₁
  subst hr₁
  refine ⟨⟨rfl, List.getElem?_eq_none (le_refl _), rfl, rfl⟩, ?_, ?_⟩
  · intro s₂ r₂ h₂
    rw [createPropertyNode_merge_after_fresh env₂ s x₁ x₂ (m ++ "$" ++ name)
      (m ++ "$" ++ name) none rfl] at h₂
    obtain ⟨hs₂, hr₂⟩ := Prod.mk.inj h₂
    subst hs₂
    exact ⟨hr₂.symm, rfl, by simp, membersOf_merge_after_fresh s _ x₁ x₂ rfl⟩
  · intro b y c' o' s₂ r₂ hname h' hk' hn' h₂
    have hq₂ : qualifiedName env₂ (s.heap ++ [PropertyNode.new x₁]) x₂ y (some c')
        = m ++ "$" ++ name := by
      rw [qualifiedName_module env₂ _ x₂ y c' o' (m ++ "$" ++ b)
        ((getElem?_alloc_of_lt s.heap _ (lt_of_getElem?_eq_some h')).trans h') hk' hn', hname]
      simp only [String.append_assoc]
    rw [createPropertyNode_merge_after_fresh env₂ s x₁ x₂ (m ++ "$" ++ name) y (some c') hq₂]
      at h₂
    obtain ⟨hs₂, hr₂⟩ := Prod.mk.inj h₂
    subst hs₂
    exact ⟨hr₂.symm, rfl, by simp, membersOf_merge_after_fresh s _ x₁ x₂ rfl⟩

/-- C16 at two sample inputs: `foo` under module `m` and `m$foo` without context are
merged into one node, constructed by the first call and holding the members of both;
so are `b$c` under module `a` and `c` under module `a$b`. -/
theorem qualified_name_collision_witness :
    ((createPropertyNode envNoSession inModule fooX (some "foo") (some 0)).2 = 1 ∧
      (createPropertyNode envNoSession
          (createPropertyNode envNoSession inModule fooX (some "foo") (some 0)).1
          barY (some "m$foo") none).2 = 1 ∧
      membersOf
        (createPropertyNode envNoSession
          (createPropertyNode envNoSession inModule fooX (some "foo") (some 0)).1
          barY (some "m$foo") none).1 1 = some ["X", "Y"]) ∧
    ((createPropertyNode envNoSession
          (createPropertyNode envNoSession nestedModules fooX (some "b$c") (some 0)).1
          barY (some "c") (some 1)).2 = 2 ∧
      membersOf
        (createPropertyNode envNoSession
          (createPropertyNode envNoSession nestedModules fooX (some "b$c") (some 0)).1
          barY (some "c") (some 1)).1 2 = some ["X", "Y"]) :=
  ⟨⟨(qualified_name_collision envNoSession envNoSession inModule _ fooX barY "m" "foo" 0 _
        (ModuleNode.new "m") rfl rfl rfl (by decide) rfl).1.1,
      ((qualified_name_collision envNoSession envNoSession inModule _ fooX barY "m" "foo" 0 _
        (ModuleNode.new "m") rfl rfl rfl (by decide) rfl).2.1 _ _ rfl).1,
      ((qualified_name_collision envNoSession envNoSession inModule _ fooX barY "m" "foo" 0 _
        (ModuleNode.new "m") rfl rfl rfl (by decide) rfl).2.1 _ _ rfl).2.2.2⟩,
    ⟨((qualified_name_collision envNoSession envNoSession nestedModules _ fooX barY "a" "b$c"
        0 _ (ModuleNode.new "a") rfl rfl rfl (by decide) rfl).2.2 "b" "c" 1 (ModuleNode.new "a$b")
        _ _ (by decide) rfl rfl rfl rfl).1,
      ((qualified_name_collision envNoSession envNoSession nestedModules _ fooX barY "a" "b$c"
        0 _ (ModuleNode.new "a") rfl rfl rfl (by decide) rfl).2.2 "b" "c" 1 (ModuleNode.new "a$b")
        _ _ (by decide) rfl rfl rfl rfl).2.2.2⟩⟩

/-! ## C17: overload keys of different names -/

theorem counter_createFunctionDeclaration_of_ne (s : State) (node : RawNode)
    {name name' : String} (context : Ref) (h : name ≠ name') :
    counter (createFunctionDeclaration s node name context) name' = counter s name' := by
  simp only [counter, get_createFunctionDeclaration_of_ne s node context h]

theorem overload_keys_f11 (s : State) (x₁ x₂ : RawNode) (context : Ref)
    (hf : counter s "f" = 10) (hf1 : counter s "f1" = 0) (hctx : context < s.heap.length) :
    childOf (createFunctionDeclaration s x₁ "f1" context) context "f11"
        = some s.heap.length ∧
      childOf (createFunctionDeclaration (createFunctionDeclaration s x₁ "f1" context)
          x₂ "f" context) context "f11" = some (s.heap.length + 1) ∧
      childOf (createFunctionDeclaration s x₁ "f" context) context "f11"
        = some s.heap.length ∧
      childOf (createFunctionDeclaration (createFunctionDeclaration s x₁ "f" context)
          x₂ "f1" context) context "f11" = some (s.heap.length + 1) := by
  have key₁ : "f1" ++ toString (0 + 1) = "f11" := by decide
  have key₂ : "f" ++ toString (10 + 1) = "f11" := by decide
  have hlen : ∀ name, (createFunctionDeclaration s x₁ name context).heap.length
      = s.heap.length + 1 := fun name => createFunctionDeclaration_heap_length s x₁ name context
  have hlive : ∀ name, context < (createFunctionDeclaration s x₁ name context).heap.length :=
    fun name => by
      rw [hlen]
      exact Nat.lt_succ_of_lt hctx
  have a₁ := childOf_createFunctionDeclaration_self s x₁ "f1" context hctx
  have a₂ := childOf_createFunctionDeclaration_self
    (createFunctionDeclaration s x₁ "f1" context) x₂ "f" context (hlive "f1")
  have b₁ := childOf_createFunctionDeclaration_self s x₁ "f" context hctx
  have b₂ := childOf_createFunctionDeclaration_self
    (createFunctionDeclaration s x₁ "f" context) x₂ "f1" context (hlive "f")
  rw [hf1, key₁] at a₁
  rw [counter_createFunctionDeclaration_of_ne s x₁ context (by decide), hf, key₂, hlen] at a₂
  rw [hf, key₂] at b₁
  rw [counter_createFunctionDeclaration_of_ne s x₁ context (by decide), hf1, key₁, hlen] at b₂
  exact ⟨a₁, a₂, b₁, b₂⟩

/-- C17: the eleventh registration of `f` and the first registration of `f1` use the same
child key `f11`: in a run from a fresh factory in which `f` was registered ten times and
`f1` never, and for one (live) context, registering `f1` and then `f` stores both new
nodes under `f11`, the second attachment using the key taken by the first; so does
registering `f` and then `f1`. -/
theorem overload_key_collision (heap : Heap) (ops : List Op) (x₁ x₂ : RawNode) (context : Ref)
    (hf : callsOf "f" ops = 10) (hf1 : callsOf "f1" ops = 0)
    (hctx : context < (run (Factory.create heap) ops).heap.length) :
    "f" ++ toString 11 = "f1" ++ toString 1 ∧
      childOf (createFunctionDeclaration (run (Factory.create heap) ops) x₁ "f1" context)
          context "f11" = some (run (Factory.create heap) ops).heap.length ∧
      childOf
          (createFunctionDeclaration
            (createFunctionDeclaration (run (Factory.create heap) ops) x₁ "f1" context)
            x₂ "f" context)
          context "f11" = some ((run (Factory.create heap) ops).heap.length + 1) ∧
      childOf (createFunctionDeclaration (run (Factory.create heap) ops) x₁ "f" context)
          context "f11" = some (run (Factory.create heap) ops).heap.length ∧
      childOf
          (createFunctionDeclaration
            (createFunctionDeclaration (run (Factory.create heap) ops) x₁ "f" context)
            x₂ "f1" context)
          context "f11" = some ((run (Factory.create heap) ops).heap.length + 1) := by
  have cf : counter (run (Factory.create heap) ops) "f" = 10 := by
    rw [counter_run, counter_create, hf]
  have cf1 : counter (run (Factory.create heap) ops) "f1" = 0 := by
    rw [counter_run, counter_create, hf1]
  exact ⟨by decide, overload_keys_f11 _ x₁ x₂ context cf cf1 hctx⟩

/-- C17 at a sample input: after ten registrations of `f` under the module at reference
`0`, the first `f1` is stored under `f11`, the key of the eleventh `f`. -/
theorem overload_key_collision_witness :
    childOf (createFunctionDeclaration (run inModule tenTimesF) fooX "f1" 0) 0 "f11"
      = some (run inModule tenTimesF).heap.length :=
  (overload_key_collision [ModuleNode.new "m"] tenTimesF fooX fooY 0 (by decide) (by decide)
    (lt_of_lt_of_le (by decide) (run_heap_length inModule tenTimesF))).2.1

/-! ## C18: a merged declaration keeps its syntax node -/

theorem Heap.bind_getElem?_update {β : Type} (h : Heap) (r r' : Ref) (f : Obj → Obj)
    (π : Obj → Option β) (hπ : ∀ o, π (f o) = π o) :
    ((h.update r f)[r']?).bind π = (h[r']?).bind π := by
  by_cases e : r = r'
  · subst e
    rw [Heap.getElem?_update_self]
    cases h[r]? with
    | none => rfl
    | some o => exact hπ o
  · rw [Heap.getElem?_update_of_ne _ _ e]

theorem step_rawOf (s : State) (op : Op) (r : Ref) (hr : r < s.heap.length) :
    rawOf (step s op) r = rawOf s r := by
  cases op with
  | createModuleNode name =>
    cases h : s._modules.get name with
    | none =>
      simp only [step, createModuleNode_fresh s name h, rawOf, getElem?_alloc_of_lt _ _ hr]
    | some m => simp only [step, createModuleNode_registered s name m h]
  | createFunctionDeclaration node name context =>
    simp only [step, createFunctionDeclaration_eq, rawOf]
    refine (Heap.bind_getElem?_update _ _ _ _ _ ?_).trans ?_
    · intro o
      rfl
    · rw [getElem?_alloc_of_lt _ _ hr]
  | createPropertyNode env node name context =>
    cases name with
    | none => simp only [step, createPropertyNode, alloc, rawOf, getElem?_alloc_of_lt _ _ hr]
    | some name =>
      cases h : s._propDeclarations.get (qualifiedName env s.heap node name context) with
      | none =>
        simp only [step, createPropertyNode_fresh env s node name context h, rawOf,
          getElem?_alloc_of_lt _ _ hr]
      | some r' =>
        simp only [step, createPropertyNode_registered env s node name context r' h, rawOf]
        refine Heap.bind_getElem?_update _ _ _ _ _ ?_
        intro o
        rfl
  | createNamespaceNode name =>
    simp only [step, createNamespaceNode, alloc, rawOf, getElem?_alloc_of_lt _ _ hr]
  | createImportNode node =>
    simp only [step, createImportNode, alloc, rawOf, getElem?_alloc_of_lt _ _ hr]
  | createExportNode node =>
    simp only [step, createExportNode, alloc, rawOf, getElem?_alloc_of_lt _ _ hr]
  | createExportDeclarationNode node =>
    simp only [step, createExportDeclarationNode, alloc, rawOf, getElem?_alloc_of_lt _ _ hr]

theorem run_rawOf (s : State) (ops : List Op) (r : Ref) (hr : r < s.heap.length) :
    rawOf (run s ops) r = rawOf s r := by
  induction ops generalizing s with
  | nil => rfl
  | cons op ops ih =>
    exact (ih (step s op) (lt_of_lt_of_le hr (step_heap_length s op))).trans
      (step_rawOf s op r hr)

/-- C18: for a registered qualified name, a `createPropertyNode(n₂, name, ctx)` call that
resolves to it returns the registered node and changes nothing but the member collection
of that node, to which it contributes the members of `getMembersFromNode(n₂)` that are
not yet present: the tables and every other object are as before, and the node keeps its
kind, name, children and wrapped syntax node.  When the name was first registered with a
syntax node `n₁`, the node still wraps `n₁` after any run of operations and after the
merge of `n₂`. -/
theorem merge_keeps_first_node (env : Env) (s : State) (n₂ : RawNode) (name : String)
    (context : Option Ref) (r : Ref) (o : Obj)
    (hreg : s._propDeclarations.get (qualifiedName env s.heap n₂ name context) = some r)
    (ho : s.heap[r]? = some o) :
    createPropertyNode env s n₂ (some name) context
        = ({ s with
            heap := s.heap.set r
              { o with
                members := o.members ++ novelMembers o.members (getMembersFromNode n₂) } },
          r) ∧
      (createPropertyNode env s n₂ (some name) context).1.heap[r]?
        = some
          { o with
            members := o.members ++ novelMembers o.members (getMembersFromNode n₂) } ∧
      (∀ r', r' ≠ r →
        (createPropertyNode env s n₂ (some name) context).1.heap[r']? = s.heap[r']?) ∧
      rawOf (createPropertyNode env s n₂ (some name) context).1 r = o.raw ∧
      ∀ (env₁ : Env) (s₀ : State) (n₁ : RawNode) (name₁ : String) (context₁ : Option Ref)
        (ops : List Op),
        s₀._propDeclarations.get (qualifiedName env₁ s₀.heap n₁ name₁ context₁) = none →
        s = run (createPropertyNode env₁ s₀ n₁ (some name₁) context₁).1 ops →
        r = (createPropertyNode env₁ s₀ n₁ (some name₁) context₁).2 →
        o.raw = some n₁ ∧
          rawOf (createPropertyNode env s n₂ (some name) context).1 r = some n₁ := by
  have hlt := lt_of_getElem?_eq_some ho
  have hcall : createPropertyNode env s n₂ (some name) context
      = ({ s with
            heap := s.heap.set r
              { o with
                members := o.members ++ novelMembers o.members (getMembersFromNode n₂) } },
          r) := by
    rw [createPropertyNode_registered env s n₂ name context r hreg]
    simp only [Heap.update, ho, Obj.maybeAddMember, foldl_addMember]
  have hraw : rawOf (createPropertyNode env s n₂ (some name) context).1 r = o.raw := by
    have := step_rawOf s (.createPropertyNode env n₂ (some name) context) r hlt
    simp only [step] at this
    rw [this]
    simp only [rawOf, ho, Option.some_bind]
  refine ⟨hcall, ?_, ?_, hraw, ?_⟩
  · rw [hcall]
    exact List.getElem?_set_self hlt
  · intro r' hr'
    rw [hcall]
    exact List.getElem?_set_ne (Ne.symm hr')
  · intro env₁ s₀ n₁ name₁ context₁ ops hnew hs hr
    have hfirst : o.raw = some n₁ := by
      have hrun := run_rawOf (createPropertyNode env₁ s₀ n₁ (some name₁) context₁).1 ops
        s₀.heap.length (by simp [createPropertyNode_fresh env₁ s₀ n₁ name₁ context₁ hnew])
      rw [createPropertyNode_fresh env₁ s₀ n₁ name₁ context₁ hnew] at hs hr hrun
      simp only at hr
      subst hr
      rw [← hs] at hrun
      simp only [rawOf, ho, Option.some_bind, getElem?_alloc_self, PropertyNode.new] at hrun
      exact hrun
    exact ⟨hfirst, hraw.trans hfirst⟩

/-- C18 at a sample input: `foo` was registered with the syntax node `fooX`; after the
merge of `fooY` and of `barY` the node still wraps `fooX`. -/
theorem merge_keeps_first_node_witness :
    rawOf (createPropertyNode envNoSession
        (run fooRegistered [.createPropertyNode envNoSession fooY (some "foo") none])
        barY (some "foo") none).1 0 = some fooX :=
  ((merge_keeps_first_node envNoSession
      (run fooRegistered [.createPropertyNode envNoSession fooY (some "foo") none])
      barY "foo" none 0
      { PropertyNode.new fooX with members := ["X", "Y"] } (by decide) (by decide)).2.2.2.2
    envNoSession (Factory.create []) fooX "foo" none
    [.createPropertyNode envNoSession fooY (some "foo") none] (by decide) rfl rfl).2

end Flowgen
